import Mathlib

/-!
Verification of the mo4 extraction pipeline against its specification.

The development shallowly embeds the Python sources:
  * src/ilegis_to_json_parser.py  (print_r dump deserializer, canonicalization,
    top-level item splitter)
  * src/leg5_src/extractor/extractor.py  (legal-text segmenter and
    regex field-recovery engine)
  * src/leg5_src/parser/hybrid_parser.py  (metadata merge and main loop)

Text is modelled as `List Char` (named `Str`), mirroring Python string
operations character by character; regexes are embedded as explicit matchers
that follow the pattern structure, including alternation order, greedy and
lazy quantifier behaviour, and word boundaries.
-/

namespace Mo4

/-- Text is a list of characters. -/
abbrev Str := List Char

/-- Shorthand to turn a Lean string literal into `Str`. -/
def tS (s : String) : Str := s.data

/-- Whitespace for Python.  Matches the characters for which both
`str.isspace` and the regex class backslash-s hold in the Latin range. -/
def pySpace (c : Char) : Bool :=
  c = ' ' || c = '\t' || c = '\n' || c = '\r' || c = '\x0b' || c = '\x0c' ||
  c = '\x1c' || c = '\x1d' || c = '\x1e' || c = '\x1f' || c = '\x85' || c = '\xa0'

/-- Line-break characters recognised by Python str.splitlines
(carriage return + line feed is handled as one break separately). -/
def pyLineBreak (c : Char) : Bool :=
  c = '\n' || c = '\r' || c = '\x0b' || c = '\x0c' || c = '\x1c' ||
  c = '\x1d' || c = '\x1e' || c = '\x85' || c = ' ' || c = ' '

/-- Auxiliary worker for `splitLines` on text whose carriage-return +
line-feed pairs have already been fused; `acc` is the current line,
reversed. -/
def splitLinesAux : Str → Str → List Str
  | [], acc => if acc = [] then [] else [acc.reverse]
  | c :: t, acc =>
      if pyLineBreak c then acc.reverse :: splitLinesAux t []
      else splitLinesAux t (c :: acc)

/-- Python str.lstrip(). -/
def pyLstrip (s : Str) : Str := s.dropWhile (fun c => pySpace c)

/-- Python str.rstrip(). -/
def pyRstrip (s : Str) : Str := (s.reverse.dropWhile (fun c => pySpace c)).reverse

/-- Python str.strip(). -/
def pyStrip (s : Str) : Str := pyRstrip (pyLstrip s)

/-- Python str.strip(chars) with an explicit character set. -/
def pyStripSet (cs : List Char) (s : Str) : Str :=
  ((s.dropWhile (fun c => cs.contains c)).reverse.dropWhile
    (fun c => cs.contains c)).reverse

/-- Python str.rstrip(chars) with an explicit character set. -/
def pyRstripSet (cs : List Char) (s : Str) : Str :=
  (s.reverse.dropWhile (fun c => cs.contains c)).reverse

/-- Does the first list start with the second one? -/
def startsWithL : Str → Str → Bool
  | _, [] => true
  | [], _ :: _ => false
  | a :: s, b :: p => a = b && startsWithL s p

/-- Remove a literal from the front of a list, if present. -/
def stripPre : Str → Str → Option Str
  | s, [] => some s
  | [], _ :: _ => none
  | a :: s, b :: p => if a = b then stripPre s p else none

/-- Python str.find for a needle inside a haystack (first index, if any). -/
def findSub (h n : Str) : Option Nat :=
  if startsWithL h n then some 0
  else match h with
    | [] => none
    | _ :: t => (findSub t n).map (· + 1)

/-- Fuel-driven worker for `replaceSub`; the fuel is the length of the
source, which suffices because each step consumes at least one character. -/
def replaceFuel (pat rep : Str) : Nat → Str → Str
  | 0, s => s
  | _ + 1, [] => []
  | n + 1, c :: t =>
      match pat, stripPre (c :: t) pat with
      | _ :: _, some rest => rep ++ replaceFuel pat rep n rest
      | _, _ => c :: replaceFuel pat rep n t

/-- Python str.replace (all occurrences, left to right). -/
def replaceSub (pat rep s : Str) : Str := replaceFuel pat rep s.length s

/-- Python str.splitlines: a carriage-return + line-feed pair counts as a
single break, every other break character (see `pyLineBreak`) counts on
its own.  Fusing the pairs first and then splitting on single characters
reproduces the left-to-right greedy pairing of the Python scanner. -/
def splitLines (s : Str) : List Str :=
  splitLinesAux (replaceSub (tS "\r\n") (tS "\n") s) []

/-- Join a list of lines with a newline character, Python backslash-n join. -/
def joinNl : List Str → Str
  | [] => []
  | [l] => l
  | l :: t => l ++ '\n' :: joinNl t

/-- ASCII decimal digit. -/
def isDig (c : Char) : Bool := '0' ≤ c && c ≤ '9'

/-- Numeric value of an ASCII digit string (most significant first). -/
def natOfKey (s : Str) : Nat :=
  s.foldl (fun n c => 10 * n + (c.toNat - '0'.toNat)) 0

/-- Python str.isdigit restricted to ASCII digits. -/
def isDigitsKey (k : Str) : Bool := !k.isEmpty && k.all (fun c => isDig c)

/-! ### Nested-Text Deserializer (ilegis_to_json_parser.parse_php_array)

The generic tree of mappings, sequences and scalars; mutually inductive so
that recursion and induction stay structural. -/

mutual
inductive PValue where
  | str : Str → PValue
  | lst : PList → PValue
  | obj : PObj → PValue
  deriving Repr

inductive PList where
  | nil : PList
  | cons : PValue → PList → PList
  deriving Repr

inductive PObj where
  | nil : PObj
  | cons : Str → PValue → PObj → PObj
  deriving Repr
end

/-- Association view of a parsed mapping, preserving insertion order. -/
def pobjToPairs : PObj → List (Str × PValue)
  | .nil => []
  | .cons k v t => (k, v) :: pobjToPairs t

/-- Build a sequence node from a Lean list. -/
def plistOfList : List PValue → PList
  | [] => .nil
  | v :: t => .cons v (plistOfList t)

/-- Python dict assignment obj[k] = v: replace in place if the key exists,
otherwise append at the end (insertion order preserved). -/
def insertKV (o : PObj) (k : Str) (v : PValue) : PObj :=
  match o with
  | .nil => .cons k v .nil
  | .cons k0 v0 t => if k0 = k then .cons k0 v t else .cons k0 v0 (insertKV t k v)

/-- Line test for the regex anchored-Array word (whole line is the word
Array surrounded by whitespace). -/
def isArrayWordLine (l : Str) : Bool := pyStrip l = tS "Array"

/-- Line test for the ilegis OPEN regex: optional leading whitespace, an
opening parenthesis, then end of line. -/
def isOpenLine (l : Str) : Bool := pyLstrip l = ['(']

/-- Line test for the CLOSE regex: a closing parenthesis surrounded by
whitespace only. -/
def isCloseLine (l : Str) : Bool :=
  match pyLstrip l with
  | ')' :: r => r.all (fun c => pySpace c)
  | _ => false

/-- Embedding of the KEY line regex: optional whitespace, a bracketed
nonempty key without a closing bracket, whitespace, the arrow, then the
rest of the line.  Returns the stripped key and stripped rest, exactly the
values the Python caller computes from the two groups. -/
def matchKeyLine (l : Str) : Option (Str × Str) :=
  match pyLstrip l with
  | '[' :: r1 =>
      let key := r1.takeWhile (fun c => c ≠ ']')
      if key.isEmpty then none
      else
        match r1.drop key.length with
        | ']' :: r2 =>
            match r2.dropWhile (fun c => pySpace c) with
            | '=' :: '>' :: r4 => some (pyStrip key, pyStrip r4)
            | _ => none
        | _ => none
  | _ => none

/-- Errors the embedded parser can signal: the unguarded list access in
parse_value (an IndexError in Python), or fuel exhaustion (a modelling
artefact; the chosen fuel is large enough for every run in this file). -/
inductive PErr where
  | indexError : PErr
  | fuelOut : PErr
  deriving Repr, DecidableEq

/-- Skip a single following OPEN line if present (the pattern
if j smaller than len and OPEN matches then j plus one, used in three
places of the source). -/
def skipOpen : List Str → List Str
  | [] => []
  | o :: t1 => if isOpenLine o then t1 else o :: t1

mutual
/-- Embedding of parse_value.  Works on the suffix of lines starting at the
cursor; the in-place insertion of the pending value text is modelled by
consing it onto the suffix at the single call site that performs it.
The scalar branch accesses the first line without a bounds check, exactly
like vals = [lines[j]] in the source; on an empty suffix this is the
IndexError. -/
def parseValue : Nat → List Str → Except PErr (PValue × List Str)
  | 0, _ => .error .fuelOut
  | fuel + 1, ls =>
      match ls with
      | l :: t =>
          if isArrayWordLine l then
            match parseObj fuel .nil (skipOpen t) with
            | .ok (o, rest) => .ok (.obj o, rest)
            | .error e => .error e
          else
            let more := t.takeWhile (fun x => (matchKeyLine x).isNone && !isCloseLine x)
            let rest := t.drop more.length
            .ok (.str (pyStrip (joinNl (l :: more))), rest)
      | [] => .error .indexError

/-- Embedding of parse_obj.  The accumulator is the dict built so far. -/
def parseObj : Nat → PObj → List Str → Except PErr (PObj × List Str)
  | 0, _, _ => .error .fuelOut
  | fuel + 1, acc, ls =>
      match ls with
      | [] => .ok (acc, [])
      | l :: t =>
          if isCloseLine l then .ok (acc, t)
          else
            match matchKeyLine l with
            | none => parseObj fuel acc t
            | some (k, after) =>
                if after.isEmpty then
                  match parseValue fuel t with
                  | .ok (v, rest) => parseObj fuel (insertKV acc k v) rest
                  | .error e => .error e
                else if isArrayWordLine after then
                  match parseObj fuel .nil (skipOpen t) with
                  | .ok (vo, rest) => parseObj fuel (insertKV acc k (.obj vo)) rest
                  | .error e => .error e
                else
                  match parseValue fuel (after :: t) with
                  | .ok (v, rest) => parseObj fuel (insertKV acc k v) rest
                  | .error e => .error e
end

/-- Stable insertion into a key-sorted list of (numeric key, value) pairs:
a new pair goes after all pairs with a smaller or equal key, which is
exactly the stable order Python sorted produces with a first-component
key. -/
def insertSorted (p : Nat × PValue) : List (Nat × PValue) → List (Nat × PValue)
  | [] => [p]
  | q :: t => if q.1 ≤ p.1 then q :: insertSorted p t else p :: q :: t

/-- Stable sort by numeric key (insertion sort). -/
def sortPairs : List (Nat × PValue) → List (Nat × PValue)
  | [] => []
  | p :: t => insertSorted p (sortPairs t)

/-- Dense range check: the sorted keys are exactly i, i+1, ... -/
def denseFrom : Nat → List (Nat × PValue) → Bool
  | _, [] => true
  | i, p :: t => p.1 = i && denseFrom (i + 1) t

/-- Dense-integer detection on the association pairs of a mapping: if the
key list is nonempty, all keys are ASCII digit strings, and, sorted
numerically (stably), they form the dense range 0..n-1, return the values
in sorted key order. -/
def densifyPairs (kvs : List (Str × PValue)) : Option (List PValue) :=
  if !kvs.isEmpty && kvs.all (fun kv => isDigitsKey kv.1) then
    let pairs := sortPairs (kvs.map (fun kv => (natOfKey kv.1, kv.2)))
    if denseFrom 0 pairs then some (pairs.map Prod.snd) else none
  else none

/-- Dense-integer canonicalization step on one mapping whose values are
already canonical: the mapping becomes a sequence when its keys form a
dense integer range, otherwise it stays a mapping.  Sorting the pairs
commutes with the recursive transformation of the values because the sort
is stable and inspects only the keys, so applying it after the recursive
pass (as `toListIfNumeric` below does) agrees with the source, which sorts
first. -/
def densify (o : PObj) : PValue :=
  match densifyPairs (pobjToPairs o) with
  | some vs => .lst (plistOfList vs)
  | none => .obj o

mutual
/-- Embedding of the canonicalization pass to_list_if_numeric: scalars are
unchanged, sequences recurse elementwise, mappings recurse into their
values and are then densified bottom-up. -/
def toListIfNumeric : PValue → PValue
  | .str s => .str s
  | .lst vs => .lst (toListIfNumericL vs)
  | .obj o => densify (toListIfNumericO o)

/-- Canonicalization mapped over a sequence. -/
def toListIfNumericL : PList → PList
  | .nil => .nil
  | .cons v t => .cons (toListIfNumeric v) (toListIfNumericL t)

/-- Canonicalization mapped over the values of a mapping. -/
def toListIfNumericO : PObj → PObj
  | .nil => .nil
  | .cons k v t => .cons k (toListIfNumeric v) (toListIfNumericO t)
end

/-- Embedding of parse_php_array: unescape the three HTML entities, split
into non-blank right-stripped lines, skip a leading Array header and its
opening parenthesis, parse the mapping, and canonicalize. -/
def parse_php_array (text : Str) : Except PErr PValue :=
  let txt := replaceSub (tS "&amp;") (tS "&") (replaceSub (tS "&lt;") (tS "<")
      (replaceSub (tS "&gt;") (tS ">") text))
  let lines := ((splitLines txt).map pyRstrip).filter (fun l => !(pyStrip l).isEmpty)
  match lines with
  | [] => .ok (.obj .nil)
  | l0 :: rest =>
      let start := if isArrayWordLine l0 then skipOpen rest else l0 :: rest
      match parseObj (3 * lines.length + 8) .nil start with
      | .ok (o, _) => .ok (toListIfNumeric (.obj o))
      | .error e => .error e

/-! ### Structured-Block Locator: top-level item splitter
(ilegis_to_json_parser.split_top_level_articole_items).
Lines here are the raw splitlines of a block, not right-stripped. -/

/-- Line test for the modal OPEN regex: an opening parenthesis surrounded
by whitespace only. -/
def isOpenLineWs (l : Str) : Bool :=
  match pyLstrip l with
  | '(' :: r => r.all (fun c => pySpace c)
  | _ => false

/-- Line test for the item-start regex: whitespace, a bracketed nonempty
ASCII digit run, whitespace, the arrow, then the Array word and trailing
whitespace. -/
def isItemStartLine (l : Str) : Bool :=
  match pyLstrip l with
  | '[' :: r =>
      let ds := r.takeWhile (fun c => isDig c)
      if ds.isEmpty then false
      else
        match r.drop ds.length with
        | ']' :: r2 =>
            match r2.dropWhile (fun c => pySpace c) with
            | '=' :: '>' :: r4 => isArrayWordLine r4
            | _ => false
        | _ => false
  | _ => false

/-- Depth-counting consumer for one item, embedding the inner while loop of
split_top_level_articole_items: an Array line immediately followed by an
opening-parenthesis line adds one depth level and consumes both lines, a
lone opening (closing) parenthesis line adds (removes) one level, and any
other line is simply consumed.  Returns the consumed lines and the
remaining lines; the Python slice lines[start:i-1] is the consumed list
without its final element, whether the loop ended by reaching depth zero
(the final element is the matching close) or by running out of input. -/
def takeItem : Nat → List Str → List Str × List Str
  | _, [] => ([], [])
  | _, [l1] => ([l1], [])
  | depth, l1 :: l2 :: t2 =>
      if isArrayWordLine l1 && isOpenLineWs l2 then
        let r := takeItem (depth + 1) t2
        (l1 :: l2 :: r.1, r.2)
      else if isOpenLineWs l1 then
        let r := takeItem (depth + 1) (l2 :: t2)
        (l1 :: r.1, r.2)
      else if isCloseLine l1 then
        if depth = 1 then ([l1], l2 :: t2)
        else
          let r := takeItem (depth - 1) (l2 :: t2)
          (l1 :: r.1, r.2)
      else
        let r := takeItem depth (l2 :: t2)
        (l1 :: r.1, r.2)

/-- Remaining lines after consuming one item never exceed the input. -/
theorem takeItem_rest_le (d : Nat) (ls : List Str) :
    (takeItem d ls).2.length ≤ ls.length := by
  induction d, ls using takeItem.induct with
  | case1 x => simp [takeItem]
  | case2 x l1 => simp [takeItem]
  | case3 depth l1 l2 t2 h ih =>
      simp only [takeItem, if_pos h, List.length_cons]
      omega
  | case4 depth l1 l2 t2 h1 h2 ih =>
      simp only [takeItem, if_neg h1, if_pos h2, List.length_cons]
      simp only [List.length_cons] at ih
      omega
  | case5 l1 l2 t2 h1 h2 h3 =>
      simp only [takeItem, if_neg h1, if_neg h2, if_pos h3, if_true, List.length_cons]
      simp
  | case6 depth l1 l2 t2 h1 h2 h3 h4 ih =>
      simp only [takeItem, if_neg h1, if_neg h2, if_pos h3, if_neg h4, List.length_cons]
      simp only [List.length_cons] at ih
      omega
  | case7 depth l1 l2 t2 h1 h2 h3 ih =>
      simp only [takeItem, if_neg h1, if_neg h2, if_neg h3, List.length_cons]
      simp only [List.length_cons] at ih
      omega

/-- Outer loop of split_top_level_articole_items: scan for an item-start
line immediately followed by an opening-parenthesis line, consume the item
with `takeItem`, and continue after it. -/
def splitItemsLines : List Str → List (List Str)
  | [] => []
  | [_] => []
  | l1 :: l2 :: t2 =>
      if isItemStartLine l1 && isOpenLineWs l2 then
        (takeItem 1 t2).1.dropLast :: splitItemsLines (takeItem 1 t2).2
      else splitItemsLines (l2 :: t2)
termination_by ls => ls.length
decreasing_by
  · have h := takeItem_rest_le 1 t2
    simp only [List.length_cons]
    omega
  · simp only [List.length_cons]
    omega

/-- Embedding of split_top_level_articole_items. -/
def split_top_level_articole_items (block : Str) : List Str :=
  (splitItemsLines (splitLines block)).map joinNl

/-- Count of lone opening-parenthesis lines in a block of text. -/
def countOpenLines (s : Str) : Nat :=
  ((splitLines s).filter (fun l => isOpenLineWs l)).length

/-- Count of lone closing-parenthesis lines in a block of text. -/
def countCloseLines (s : Str) : Nat :=
  ((splitLines s).filter (fun l => isCloseLine l)).length

/-- A body line that the depth counter treats as plain text: not an Array
word line, not a lone opening or closing parenthesis, nonempty, and free of
line-break characters (so that joining and re-splitting is the identity). -/
def PlainLine (l : Str) : Prop :=
  isArrayWordLine l = false ∧ isOpenLineWs l = false ∧ isCloseLine l = false ∧
  l ≠ [] ∧ ∀ c ∈ l, pyLineBreak c = false

instance (l : Str) : Decidable (PlainLine l) := by
  unfold PlainLine
  infer_instance

/-- Item body used in the C8 scenario: plain lines surrounding one nested
Array ( ... ) sub-structure. -/
def mkBody (p1 p2 p3 : List Str) : List Str :=
  p1 ++ [tS "Array", tS "("] ++ p2 ++ [tS ")"] ++ p3

/-- One top-level item: a header line, an opening parenthesis, the body,
and the matching closing parenthesis. -/
def mkItem (hdr : Str) (b : List Str) : List Str :=
  hdr :: tS "(" :: b ++ [tS ")"]

/-! ### Legal-Text Segmenter (leg5_src/extractor/extractor.py)

The DOM walk (BeautifulSoup) is an external collaborator: the embedding
takes the full cleaned page text and the list of strong-element texts as
inputs and models everything the source does with them. -/

/-- Space or tab, the class of the run-collapsing regex in _clean_text. -/
def isSpTab (c : Char) : Bool := c = ' ' || c = '\t'

/-- Collapse every run of spaces and tabs to a single space (the run is
replaced where it ends, which yields the same text as replacing it where
it starts). -/
def collapseSpTab : Str → Str
  | [] => []
  | [a] => if isSpTab a then [' '] else [a]
  | a :: b :: t =>
      if isSpTab a && isSpTab b then collapseSpTab (b :: t)
      else if isSpTab a then ' ' :: collapseSpTab (b :: t)
      else a :: collapseSpTab (b :: t)

/-- Collapse every run of two or more newlines to a single newline. -/
def collapseNl : Str → Str
  | [] => []
  | [a] => [a]
  | a :: b :: t =>
      if a = '\n' && b = '\n' then collapseNl (b :: t)
      else a :: collapseNl (b :: t)

/-- Embedding of _clean_text: replace non-breaking spaces by spaces,
collapse space/tab runs to one space, collapse newline runs to one
newline, then strip. -/
def clean_text (s : Str) : Str :=
  pyStrip (collapseNl (collapseSpTab
    (s.map (fun c => if c = '\xa0' then ' ' else c))))

/-- Group consumer for END_MARK_RX: one or more occurrences of a dot
followed by exactly three digits, consumed greedily; returns the rest.
Greedy is exact here: after fewer groups the next character is the dot of
a further group, on which the closing part of the pattern cannot match. -/
def matchEndGroups : Str → Option Str
  | d :: a :: b :: c :: t =>
      if d = '.' && isDig a && isDig b && isDig c then
        match matchEndGroups t with
        | some r => some r
        | none => some t
      else none
  | _ => none

/-- Embedding of END_MARK_RX: an opening parenthesis, whitespace, a digit
run, whitespace, a slash, whitespace, one to three digits, the dot-grouped
thousands, whitespace, and a closing parenthesis.  Each greedy quantifier
is consumed maximally, which is exact because the following pattern part
can never match a character of the quantified class.  Returns the suffix
after the match.  `expectChar` consumes one expected literal character. -/
def expectChar (ch : Char) : Str → Option Str
  | c :: t => if c = ch then some t else none
  | [] => none

/-- Embedding of END_MARK_RX continued: the full pattern as a chain of
the pieces above. -/
def matchEndMark (s : Str) : Option Str :=
  (expectChar '(' s).bind (fun r0 =>
    let r1 := r0.dropWhile (fun c => pySpace c)
    if (r1.takeWhile (fun c => isDig c)).isEmpty then none
    else
      (expectChar '/'
          ((r1.dropWhile (fun c => isDig c)).dropWhile (fun c => pySpace c))).bind
        (fun r4 =>
          let r5 := r4.dropWhile (fun c => pySpace c)
          let d2 := r5.takeWhile (fun c => isDig c)
          if d2.isEmpty || 3 < d2.length then none
          else
            (matchEndGroups (r5.dropWhile (fun c => isDig c))).bind (fun r7 =>
              expectChar ')' (r7.dropWhile (fun c => pySpace c)))))

/-- Scan for the leftmost END_MARK match at or after offset `i` of the
suffix `s`; returns the (start, end) offsets of the match. -/
def searchEndAux : Str → Nat → Option (Nat × Nat)
  | [], _ => none
  | c :: t, i =>
      match matchEndMark (c :: t) with
      | some r => some (i, i + ((c :: t).length - r.length))
      | none => searchEndAux t (i + 1)

/-- Embedding of END_MARK_RX.search(full, pos): leftmost match from an
explicit start offset. -/
def searchEndFrom (full : Str) (pos : Nat) : Option (Nat × Nat) :=
  searchEndAux (full.drop pos) pos

/-- Word characters of the embedded regexes: ASCII letters and digits, the
underscore, and the Romanian diacritic letters occurring in this corpus. -/
def isWordChar (c : Char) : Bool :=
  ('A' ≤ c && c ≤ 'Z') || ('a' ≤ c && c ≤ 'z') || isDig c || c = '_' ||
  c = 'ă' || c = 'â' || c = 'î' || c = 'ș' || c = 'ț' ||
  c = 'Ă' || c = 'Â' || c = 'Î' || c = 'Ș' || c = 'Ț' ||
  c = 'ş' || c = 'ţ' || c = 'Ş' || c = 'Ţ'

/-- Lower-casing for the letters used by the patterns of this corpus. -/
def lowCh (c : Char) : Char :=
  if 'A' ≤ c && c ≤ 'Z' then Char.ofNat (c.toNat + 32)
  else if c = 'Ă' then 'ă' else if c = 'Â' then 'â' else if c = 'Î' then 'î'
  else if c = 'Ș' then 'ș' else if c = 'Ț' then 'ț' else if c = 'Ş' then 'ş'
  else if c = 'Ţ' then 'ţ' else c

/-- Upper-casing (Python str.upper) for the letters of this corpus. -/
def upCh (c : Char) : Char :=
  if 'a' ≤ c && c ≤ 'z' then Char.ofNat (c.toNat - 32)
  else if c = 'ă' then 'Ă' else if c = 'â' then 'Â' else if c = 'î' then 'Î'
  else if c = 'ș' then 'Ș' else if c = 'ț' then 'Ț' else if c = 'ş' then 'Ş'
  else if c = 'ţ' then 'Ţ' else c

/-- Python str.upper on this corpus. -/
def pyUpper (s : Str) : Str := s.map upCh

/-- Case-insensitive character comparison. -/
def chEqCI (a b : Char) : Bool := lowCh a = lowCh b

/-- Case-insensitive literal match; returns the rest of the source. -/
def litCI : Str → Str → Option Str
  | [], s => some s
  | _ :: _, [] => none
  | p :: ps, c :: cs => if chEqCI p c then litCI ps cs else none

/-- Is an optional character a word character? (end of text is not). -/
def isWordOpt : Option Char → Bool
  | none => false
  | some c => isWordChar c

/-- Matcher for one dotted-abbreviation alternative (the S.A / S.R.L /
P.F.A / S.N.C patterns): each letter case-insensitively, an optional dot
after it, optional whitespace before the next letter, and after the final
letter an optional dot subject to the trailing word boundary — the dot is
consumed first (greedy) and given back when the boundary then fails, which
always leaves a valid boundary because the dot itself is not a word
character.  Intermediate optional dots are deterministic because the
character after them must be whitespace or a letter.  Returns the rest of
the source after the match. -/
def matchAbbrev : List Char → Str → Option Str
  | [], s => some s
  | [l], s =>
      match s with
      | [] => none
      | c :: t =>
          if chEqCI l c then
            match t with
            | '.' :: t2 => if isWordOpt t2.head? then some t2 else some t
            | _ => if isWordOpt t.head? then none else some t
          else none
  | l :: ls, s =>
      match s with
      | [] => none
      | c :: t =>
          if chEqCI l c then
            let t1 := match t with
              | '.' :: t2 => t2
              | _ => t
            matchAbbrev ls (t1.dropWhile (fun d => pySpace d))
          else none

/-- The LEGAL_FORM_RX alternation at one position, with the leading word
boundary (the first pattern character is a letter, so the boundary holds
exactly when the previous character is not a word character). -/
def matchLegalFormAt (prev : Option Char) (s : Str) : Option Str :=
  if isWordOpt prev then none
  else
    (matchAbbrev ['S', 'A'] s).orElse (fun _ =>
      (matchAbbrev ['S', 'R', 'L'] s).orElse (fun _ =>
        (matchAbbrev ['P', 'F', 'A'] s).orElse (fun _ =>
          matchAbbrev ['S', 'N', 'C'] s)))

/-- LEGAL_FORM_RX.search used for its truthiness: does any position match? -/
def legalFormSearch : Option Char → Str → Bool
  | _, [] => false
  | prev, c :: t =>
      (matchLegalFormAt prev (c :: t)).isSome || legalFormSearch (some c) t

/-- Search of one dotted-abbreviation pattern with its word boundaries,
used by _categorize_legal_form on upper-cased text. -/
def abbrevSearch (letters : List Char) : Option Char → Str → Bool
  | _, [] => false
  | prev, c :: t =>
      (if isWordOpt prev then none else matchAbbrev letters (c :: t)).isSome ||
        abbrevSearch letters (some c) t

/-- Embedding of _categorize_legal_form: upper-case the text (an absent
text counts as empty) and test the four legal-form patterns in order. -/
def categorize_legal_form (text : Option Str) : Str :=
  let t := pyUpper (text.getD [])
  if abbrevSearch ['S', 'A'] none t then tS "SA"
  else if abbrevSearch ['S', 'R', 'L'] none t then tS "SRL"
  else if abbrevSearch ['P', 'F', 'A'] none t then tS "PFA"
  else if abbrevSearch ['S', 'N', 'C'] none t then tS "SNC"
  else tS "OTHER"

/-- Anchor candidates of _find_segments_via_strong: clean each
strong-element text, keep it when nonempty and containing a legal-form
token, and locate its first occurrence in the full text; texts that do not
occur (find returning -1) are dropped. -/
def strongCandidates (full : Str) (sts : List Str) : List (Nat × Str) :=
  sts.filterMap (fun st =>
    let t := clean_text (pyStrip st)
    if !t.isEmpty && legalFormSearch none t then
      (findSub full t).map (fun i => (i, t))
    else none)

/-- Stable insertion by anchor position (after existing equal keys), the
order Python sorted produces with a first-component key. -/
def insertByPos (p : Nat × Str) : List (Nat × Str) → List (Nat × Str)
  | [] => [p]
  | q :: t => if q.1 ≤ p.1 then q :: insertByPos p t else p :: q :: t

/-- Stable sort of the anchors by position. -/
def sortByPos : List (Nat × Str) → List (Nat × Str)
  | [] => []
  | p :: t => insertByPos p (sortByPos t)

/-- Embedding of _find_segments_via_strong: sort the anchors by position
and, for each, search the end marker from the anchor position; an anchor
with no following end marker yields no segment. -/
def find_segments_via_strong (full : Str) (sts : List Str) :
    List (Nat × Nat × Str) :=
  (sortByPos (strongCandidates full sts)).filterMap
    (fun p => (searchEndFrom full p.1).map (fun m => (p.1, m.2, p.2)))

/-! ### Field-Recovery Engine (_extract_entry and its regex battery) -/

/-- ASCII letter. -/
def isAsciiAlpha (c : Char) : Bool :=
  ('A' ≤ c && c ≤ 'Z') || ('a' ≤ c && c ≤ 'z')

/-- Cased letters of this corpus, for Python str.title. -/
def isAlphaCorp (c : Char) : Bool :=
  isAsciiAlpha c || c = 'ă' || c = 'â' || c = 'î' || c = 'ș' || c = 'ț' ||
  c = 'Ă' || c = 'Â' || c = 'Î' || c = 'Ș' || c = 'Ț' ||
  c = 'ş' || c = 'ţ' || c = 'Ş' || c = 'Ţ'

/-- Worker for Python str.title: upper-case a cased letter that follows a
non-cased character, lower-case every other cased letter. -/
def pyTitleAux : Bool → Str → Str
  | _, [] => []
  | prevAlpha, c :: t =>
      if isAlphaCorp c then
        (if prevAlpha then lowCh c else upCh c) :: pyTitleAux true t
      else c :: pyTitleAux false t

/-- Python str.title on this corpus. -/
def pyTitle (s : Str) : Str := pyTitleAux false s

/-- Match a required whitespace run (regex backslash-s-plus), maximally;
exact because every use site is followed by a letter. -/
def wsPlus (s : Str) : Option Str :=
  match s with
  | c :: t => if pySpace c then some (t.dropWhile (fun d => pySpace d)) else none
  | [] => none

/-- Match a required whitespace run and report how long it was. -/
def wsPlusG (s : Str) : Option (Nat × Str) :=
  match s with
  | c :: t =>
      if pySpace c then
        some ((t.takeWhile (fun d => pySpace d)).length + 1,
          t.dropWhile (fun d => pySpace d))
      else none
  | [] => none

/-- Case-insensitive character-class literal: each position may accept one
of several (lower-cased) characters. -/
def litClasses : List (List Char) → Str → Option Str
  | [], s => some s
  | _ :: _, [] => none
  | cls :: ps, c :: cs => if cls.contains (lowCh c) then litClasses ps cs else none

/-- Generic leftmost search: try the position matcher at every offset,
left to right, threading the previous character for word boundaries; on
success also return the suffix at the match position, from which
whole-match slices are taken. -/
def genSearchP (f : Option Char → Str → Option α) : Option Char → Str → Option (Str × α)
  | prev, [] => (f prev []).map (fun a => (([] : Str), a))
  | prev, c :: t =>
      match f prev (c :: t) with
      | some a => some (c :: t, a)
      | none => genSearchP f (some c) t

/-- Lookahead tail of the STOP_WORDS alternation reached after the
optional comma and whitespace: one of the stop literals or the Python
dollar (end of text, or just before a final newline, both of which are
reached exactly when the whitespace run consumes the remainder). -/
def stopWordAt (s : Str) : Bool :=
  (litCI (tS "înregistrată") s).isSome || (litCI (tS "având") s).isSome ||
  (litCI (tS "reprezentând") s).isSome ||
  (match litCI (tS "la") s with
   | some r1 =>
       match wsPlus r1 with
       | some r2 =>
           match litCI (tS "data") r2 with
           | some r3 =>
               match wsPlus r3 with
               | some r4 => (litCI (tS "de") r4).isSome
               | none => false
           | none => false
       | none => false
   | none => false) ||
  (litCI (tS "domiciliat") s).isSome || (litCI (tS "identificat") s).isSome ||
  (litCI (tS "deținând") s).isSome ||
  (match litCI (tS "cod") s with
   | some r1 =>
       match wsPlus r1 with
       | some r2 => (litCI (tS "unic") r2).isSome
       | none => false
   | none => false) ||
  (litCI (tS "CUI") s).isSome ||
  (match litCI (tS "am") s with
   | some r1 =>
       match wsPlus r1 with
       | some r2 => (litCI (tS "decis") r2).isSome
       | none => false
   | none => false)

/-- The full lookahead: optional comma, whitespace, then a stop word or
the dollar.  As a zero-width boolean test the backtracking order of the
optional comma is irrelevant. -/
def stopLookOk (s : Str) : Bool :=
  (stopWordAt (s.dropWhile (fun c => pySpace c)) ||
    (s.dropWhile (fun c => pySpace c)).isEmpty) ||
  (match s with
   | ',' :: t =>
       stopWordAt (t.dropWhile (fun c => pySpace c)) ||
         (t.dropWhile (fun c => pySpace c)).isEmpty
   | _ => false)

/-- Lazy capture of one or more characters other than semicolon and
newline, extended one character at a time until the STOP lookahead holds;
`acc` is the capture so far, reversed. -/
def lazyCapAux : Str → Str → Option Str
  | acc, c :: t =>
      if c ≠ ';' && c ≠ '\n' then
        if stopLookOk t then some (c :: acc).reverse else lazyCapAux (c :: acc) t
      else none
  | _, [] => none

/-- Lazy capture starting empty. -/
def lazyCap (s : Str) : Option Str := lazyCapAux [] s

/-- Backtracking over the greedy whitespace run preceding a lazy capture:
Python holds the maximal run first and gives whitespace back one character
at a time after the lazy group has exhausted its options. -/
def tryCapWs (s : Str) : Nat → Option Str
  | 0 => lazyCap s
  | w + 1 =>
      match lazyCap (s.drop (w + 1)) with
      | some g => some g
      | none => tryCapWs s w

/-- Capture after a greedy optional whitespace run. -/
def capAfterWs (s : Str) : Option Str :=
  tryCapWs s ((s.takeWhile (fun c => pySpace c)).length)

/-- Variant for a required whitespace run (at least one character),
additionally reporting how much whitespace the successful branch kept. -/
def tryCapWsG (s : Str) : Nat → Option (Nat × Str)
  | 0 => none
  | w + 1 =>
      match lazyCap (s.drop (w + 1)) with
      | some g => some (w + 1, g)
      | none => tryCapWsG s w

/-- Capture after a greedy required whitespace run. -/
def capAfterWs1G (s : Str) : Option (Nat × Str) :=
  tryCapWsG s ((s.takeWhile (fun c => pySpace c)).length)

/-- Capture after a greedy required whitespace run, group only. -/
def capAfterWs1 (s : Str) : Option Str :=
  (capAfterWs1G s).map Prod.snd

/-- Colon part of RE_SEDIU_COLON after the label alternation: whitespace,
the colon, then the whitespace-backtracked lazy capture. -/
def sediuColonTail (r : Str) : Option Str :=
  match r.dropWhile (fun c => pySpace c) with
  | ':' :: r2 => capAfterWs r2
  | _ => none

/-- RE_SEDIU_COLON at one position: the label alternation tries the long
form first and falls back to the bare form when the rest of the pattern
fails, exactly like the regex alternation. -/
def matchSediuColonAt (prev : Option Char) (s : Str) : Option Str :=
  if isWordOpt prev then none
  else
    match litCI (tS "sediul") s with
    | none => none
    | some r1 =>
        (match wsPlus r1 with
         | some r2 =>
             match litCI (tS "social") r2 with
             | some r3 => sediuColonTail r3
             | none => none
         | none => none).orElse (fun _ => sediuColonTail r1)

/-- RE_SEDIU_IN at one position. -/
def matchSediuInAt (prev : Option Char) (s : Str) : Option Str :=
  if isWordOpt prev then none
  else
    match litCI (tS "cu") s with
    | none => none
    | some r1 =>
        match wsPlus r1 with
        | none => none
        | some r2 =>
            match litCI (tS "sediul") r2 with
            | none => none
            | some r3 =>
                match wsPlus r3 with
                | none => none
                | some r4 =>
                    match litCI (tS "social") r4 with
                    | none => none
                    | some r5 =>
                        match wsPlus r5 with
                        | none => none
                        | some r6 =>
                            match (litCI (tS "în") r6).orElse
                                (fun _ => litCI (tS "in") r6) with
                            | some r7 => capAfterWs1 r7
                            | none => none

/-- One keyword alternative of RE_ADDRESS_FALLBACK: the literal, with a
dot that is forbidden, optional (taken when present, which is exact since
a whitespace must follow), or required.  Returns the consumed length and
the rest. -/
inductive DotMode where
  | noDot : DotMode
  | optDot : DotMode
  | reqDot : DotMode

def kwAlt (kw : Str) (dm : DotMode) (r : Str) : Option (Nat × Str) :=
  match litCI kw r with
  | none => none
  | some rest =>
      match dm, rest with
      | .noDot, _ => some (kw.length, rest)
      | .optDot, '.' :: r3 => some (kw.length + 1, r3)
      | .optDot, _ => some (kw.length, rest)
      | .reqDot, '.' :: r3 => some (kw.length + 1, r3)
      | .reqDot, _ => none

/-- The keyword alternation of RE_ADDRESS_FALLBACK in pattern order, each
alternative continued by the required whitespace and the lazy capture, with
fallback to the next alternative when the continuation fails. -/
def addrKwChain : List (Str × DotMode) → Str → Option Nat
  | [], _ => none
  | (kw, dm) :: alts, r =>
      match kwAlt kw dm r with
      | some (k, rest) =>
          match capAfterWs1G rest with
          | some (w, g) => some (k + w + g.length)
          | none => addrKwChain alts r
      | none => addrKwChain alts r

/-- RE_ADDRESS_FALLBACK at one position; returns the whole-match length
(the code uses group(0)). -/
def matchAddrFallbackAt (prev : Option Char) (s : Str) : Option Nat :=
  if isWordOpt prev then none
  else
    match litCI (tS "în") s with
    | none => none
    | some r1 =>
        match wsPlusG r1 with
        | none => none
        | some (w1, r2) =>
            match addrKwChain
                [(tS "satul", .noDot), (tS "municipiul", .noDot),
                 (tS "orașul", .noDot), (tS "mun", .optDot),
                 (tS "jud", .optDot), (tS "com", .reqDot)] r2 with
            | some n => some (2 + w1 + n)
            | none => none

/-- Tail of RE_CUI after the label alternation: whitespace, an optional
colon or hyphen, whitespace, an optional RO prefix with whitespace, then
six to ten digits followed by a word boundary.  Each optional piece is
taken when present, which is exact because the follower can never match
the skipped character.  Returns group(1), the digits. -/
def cuiDigitsTail (r : Str) : Option Str :=
  let r1 := r.dropWhile (fun c => pySpace c)
  let r2 := match r1 with
    | ':' :: t => t.dropWhile (fun c => pySpace c)
    | '-' :: t => t.dropWhile (fun c => pySpace c)
    | _ => r1
  let r3 := match litCI (tS "RO") r2 with
    | some t => t.dropWhile (fun c => pySpace c)
    | none => r2
  let ds := r3.takeWhile (fun c => isDig c)
  if 6 ≤ ds.length ∧ ds.length ≤ 10 ∧
      isWordOpt (r3.drop ds.length).head? = false then some ds else none

/-- The Cod unic de înregistrare label of RE_CUI, with the optional ul
taken when present (exact, since a whitespace must follow) and the
optional de group fully backtracked. -/
def codUnicToken (s : Str) : Option Str :=
  match litCI (tS "Cod") s with
  | none => none
  | some r0 =>
      let r1 := match litCI (tS "ul") r0 with
        | some t => t
        | none => r0
      match wsPlus r1 with
      | none => none
      | some r2 =>
          match litCI (tS "unic") r2 with
          | none => none
          | some r3 =>
              (match wsPlus r3 with
               | some r4 =>
                   match litCI (tS "de") r4 with
                   | some r5 =>
                       match wsPlus r5 with
                       | some r6 => litCI (tS "înregistrare") r6
                       | none => none
                   | none => none
               | none => none).orElse (fun _ =>
                 match wsPlus r3 with
                 | some r4 => litCI (tS "înregistrare") r4
                 | none => none)

/-- RE_CUI at one position. -/
def matchCUIAt (prev : Option Char) (s : Str) : Option Str :=
  if isWordOpt prev then none
  else
    (match litCI (tS "CUI") s with
     | some r => cuiDigitsTail r
     | none => none).orElse (fun _ =>
      match codUnicToken s with
      | some r => cuiDigitsTail r
      | none => none)

/-- RE_REGNO at one position; returns the whole-match length.  The counted
digit runs are consumed fully, which is exact because a digit can never
match the following slash or boundary. -/
def matchRegnoAt (prev : Option Char) (s : Str) : Option Nat :=
  if isWordOpt prev then none
  else
    match s with
    | [] => none
    | c :: t =>
        if lowCh c = 'j' || lowCh c = 'c' || lowCh c = 'f' then
          let w := (t.takeWhile (fun d => pySpace d)).length
          let r1 := t.dropWhile (fun d => pySpace d)
          let d1 := r1.takeWhile (fun d => isDig d)
          if d1.length < 1 ∨ 2 < d1.length then none
          else
            match r1.drop d1.length with
            | '/' :: r2 =>
                let d2 := r2.takeWhile (fun d => isDig d)
                if d2.length < 1 ∨ 6 < d2.length then none
                else
                  match r2.drop d2.length with
                  | '/' :: r3 =>
                      let d3 := r3.takeWhile (fun d => isDig d)
                      if d3.length = 4 ∧ isWordOpt (r3.drop 4).head? = false then
                        some (1 + w + d1.length + 1 + d2.length + 1 + 4)
                      else none
                  | _ => none
            | _ => none
        else none

/-- Tail of the second RE_EUID alternative after the letter prefix: an
optional dot (taken when present, exact since the letter O must follow),
the ONRC label with its dot, a letter, and the three digit groups.
Returns the consumed length. -/
def euidAlt2Tail (r : Str) : Option Nat :=
  let (dot, r0) : Nat × Str := match r with
    | '.' :: t => (1, t)
    | _ => (0, r)
  match litCI (tS "ONRC.") r0 with
  | none => none
  | some r1 =>
      match r1 with
      | [] => none
      | c :: r2 =>
          if isAsciiAlpha c then
            let d1 := r2.takeWhile (fun d => isDig d)
            if d1.length < 1 ∨ 2 < d1.length then none
            else
              match r2.drop d1.length with
              | '/' :: r3 =>
                  let d2 := r3.takeWhile (fun d => isDig d)
                  if d2.length < 3 ∨ 8 < d2.length then none
                  else
                    match r3.drop d2.length with
                    | '/' :: r4 =>
                        let d3 := r4.takeWhile (fun d => isDig d)
                        if d3.length = 4 ∧ isWordOpt (r4.drop 4).head? = false then
                          some (dot + 5 + 1 + d1.length + 1 + d2.length + 1 + 4)
                        else none
                    | _ => none
              | _ => none
          else none

/-- Backtracking over the greedy letter run of the second RE_EUID
alternative, longest prefix first, at least two letters. -/
def euidAlt2Go (s : Str) : Nat → Option Nat
  | 0 => none
  | 1 => none
  | k + 2 =>
      match euidAlt2Tail (s.drop (k + 2)) with
      | some m => some (k + 2 + m)
      | none => euidAlt2Go s (k + 1)

/-- RE_EUID at one position; returns the whole-match length. -/
def matchEuidAt (prev : Option Char) (s : Str) : Option Nat :=
  if isWordOpt prev then none
  else
    (match litCI (tS "ROONRC.") s with
     | some r =>
         match r with
         | [] => none
         | c :: r2 =>
             if isAsciiAlpha c then
               let ds := r2.takeWhile (fun d => isDig d)
               if 1 ≤ ds.length ∧ isWordOpt (r2.drop ds.length).head? = false then
                 some (7 + 1 + ds.length)
               else none
             else none
     | none => none).orElse (fun _ =>
      euidAlt2Go s ((s.takeWhile (fun c => isAsciiAlpha c)).length))

/-- RE_CAEN_LISTLINE at a line start: whitespace (which may cross line
breaks), exactly four digits, whitespace, a hyphen, and at least one
whitespace character, consumed greedily.  Returns the digit group and the
consumed length. -/
def caenListMatchAt (s : Str) : Option (Str × Nat) :=
  let w1 := (s.takeWhile (fun c => pySpace c)).length
  let r1 := s.dropWhile (fun c => pySpace c)
  let ds := r1.takeWhile (fun c => isDig c)
  if ds.length ≠ 4 then none
  else
    let r2 := r1.drop 4
    let w2 := (r2.takeWhile (fun c => pySpace c)).length
    match r2.dropWhile (fun c => pySpace c) with
    | '-' :: r3 =>
        match wsPlusG r3 with
        | some (w3, _) => some (ds, w1 + 4 + w2 + 1 + w3)
        | none => none
    | _ => none

/-- finditer for the multiline RE_CAEN_LISTLINE: attempt the pattern at
every line-start position at or after the scan cursor, resuming after each
match (the fuel is the text length; every step consumes at least one
character). -/
def caenListScanF : Nat → Str → Bool → List Str
  | 0, _, _ => []
  | _ + 1, [], _ => []
  | fuel + 1, c :: t, atStart =>
      if atStart then
        match caenListMatchAt (c :: t) with
        | some (g, n) =>
            g :: caenListScanF fuel ((c :: t).drop n)
              (((c :: t).take n).getLast? = some '\n')
        | none => caenListScanF fuel t (c = '\n')
      else caenListScanF fuel t (c = '\n')

/-- All RE_CAEN_LISTLINE groups of a chunk. -/
def caenListAll (s : Str) : List Str := caenListScanF s.length s true

/-- RE_CAEN_INLINE at one position: the token alternation (whose
alternatives start with different letters, so no cross-alternative
backtracking can occur), a nonempty non-digit gap, exactly four digits and
a word boundary.  Returns the digit group and the consumed length. -/
def caenInlineMatchAt (prev : Option Char) (s : Str) : Option (Str × Nat) :=
  if isWordOpt prev then none
  else
    let tok : Option Nat :=
      match litCI (tS "CAEN") s with
      | some _ => some 4
      | none =>
          match litCI (tS "grupa") s with
          | some r1 =>
              match wsPlusG r1 with
              | some (w, r2) =>
                  match litCI (tS "CAEN") r2 with
                  | some _ => some (5 + w + 4)
                  | none => none
              | none => none
          | none => none
    match tok with
    | none => none
    | some k =>
        let r := s.drop k
        let nd := r.takeWhile (fun c => !isDig c)
        if nd.isEmpty then none
        else
          let r2 := r.drop nd.length
          let ds := r2.takeWhile (fun c => isDig c)
          if ds.length = 4 ∧ isWordOpt (r2.drop 4).head? = false then
            some (ds, k + nd.length + 4)
          else none

/-- finditer for RE_CAEN_INLINE, resuming after each match. -/
def caenInlineScanF : Nat → Option Char → Str → List Str
  | 0, _, _ => []
  | _ + 1, _, [] => []
  | fuel + 1, prev, c :: t =>
      match caenInlineMatchAt prev (c :: t) with
      | some (g, n) =>
          g :: caenInlineScanF fuel (((c :: t).take n).getLast?) ((c :: t).drop n)
      | none => caenInlineScanF fuel (some c) t

/-- All RE_CAEN_INLINE groups of a chunk. -/
def caenInlineAll (s : Str) : List Str := caenInlineScanF s.length none s

/-- Greedy capture of one or more characters other than semicolon and
newline after a greedy whitespace run, giving whitespace back when the
class run after it is empty (the backtracking Python performs when the
capture would otherwise be empty). -/
def tryGreedyWs (s : Str) : Nat → Option Str
  | 0 =>
      let g := s.takeWhile (fun c => c ≠ ';' && c ≠ '\n')
      if g.isEmpty then none else some g
  | w + 1 =>
      let g := (s.drop (w + 1)).takeWhile (fun c => c ≠ ';' && c ≠ '\n')
      if g.isEmpty then tryGreedyWs s w else some g

/-- RE_CAPITAL at one position; returns group(1). -/
def matchCapitalAt (prev : Option Char) (s : Str) : Option Str :=
  if isWordOpt prev then none
  else
    match litCI (tS "capital") s with
    | none => none
    | some r1 =>
        match wsPlus r1 with
        | none => none
        | some r2 =>
            match litCI (tS "social") r2 with
            | none => none
            | some r3 =>
                match r3.dropWhile (fun c => pySpace c) with
                | ':' :: r4 => tryGreedyWs r4 ((r4.takeWhile (fun c => pySpace c)).length)
                | _ => none

/-- RE_DOC_TYPE at one position; returns the whole-match length.  The
bracketed classes admit both the diacritic and the plain letter. -/
def matchDocTypeAt (prev : Option Char) (s : Str) : Option Nat :=
  if isWordOpt prev then none
  else
    let fin := fun (n : Nat) =>
      if isWordOpt (s.drop n).head? then none else some (n : Nat)
    (match litCI (tS "NOTIFICARE") s with
     | some _ => fin 10
     | none => none).orElse (fun _ =>
      (match litClasses [['h'], ['o'], ['t'], ['ă', 'a'], ['r'], ['â', 'a'],
          ['r'], ['e']] s with
       | some _ => fin 8
       | none => none).orElse (fun _ =>
        (match litCI (tS "DECIZIE") s with
         | some _ => fin 7
         | none => none).orElse (fun _ =>
          match litClasses [['î'], ['n'], ['ș', 's'], ['t'], ['i'], ['i'],
              ['n'], ['ț', 't'], ['a'], ['r'], ['e']] s with
          | some _ => fin 11
          | none => none)))

/-- De-duplication preserving first occurrence (dict.fromkeys). -/
def dedupKeepFirst : List Str → List Str :=
  go []
where
  go : List Str → List Str → List Str
    | _, [] => []
    | seen, x :: t =>
        if seen.contains x then go seen t else x :: go (x :: seen) t

/-- Embedding of the MetaInfo model (leg5_src/extractor/model.py). -/
structure MetaInfo where
  cui : Option Str := none
  legal_type : Option Str := none
  reg_number : Option Str := none
  euid : Option Str := none
  caen : List Str := []
  capital : Option Str := none
  address : Option Str := none
  deriving Repr, DecidableEq

/-- Embedding of the Entry model (leg5_src/extractor/model.py). -/
structure Entry where
  type : Option Str := none
  number : Option Str := none
  date : Option Str := none
  year : Option Str := none
  company_name : Option Str := none
  meta : MetaInfo := {}
  raw_text : Str := []
  bulletin_id : Option Str := none
  article_id : Option Str := none
  list_parent_classes : Option Str := none
  collapse_id : Option Str := none
  source_href : Option Str := none
  deriving Repr, DecidableEq

/-- Truthiness of an optional string (Python: None and the empty string
are falsy). -/
def truthy : Option Str → Bool
  | none => false
  | some s => !s.isEmpty

/-- Embedding of _extract_entry: the ordered regex battery over one chunk,
with the three-tier address fallback, the name hint with its first
legal-form-line fallback, and the legal-form classification filtered to
the closed set. -/
def extract_entry (chunk : Str) (name_hint : Option Str)
    (binfo : Option Str × Option Str × Option Str) : Entry :=
  let cui := (genSearchP matchCUIAt none chunk).map Prod.snd
  let regno := (genSearchP matchRegnoAt none chunk).map (fun p => p.1.take p.2)
  let euid := (genSearchP matchEuidAt none chunk).map (fun p => p.1.take p.2)
  let caen_codes := dedupKeepFirst (caenListAll chunk ++ caenInlineAll chunk)
  let capital := (genSearchP matchCapitalAt none chunk).map
    (fun p => pyRstripSet [';', '.'] (pyStrip p.2))
  let address :=
    match genSearchP matchSediuColonAt none chunk with
    | some p => some (pyStripSet [' ', ',', ';', '.'] p.2)
    | none =>
        match genSearchP matchSediuInAt none chunk with
        | some p => some (pyStripSet [' ', ',', ';', '.'] p.2)
        | none =>
            (genSearchP matchAddrFallbackAt none chunk).map
              (fun p => pyStripSet [' ', ',', ';', '.'] (p.1.take p.2))
  let doc_type := (genSearchP matchDocTypeAt none chunk).map
    (fun p => pyTitle (p.1.take p.2))
  let company_name :=
    if truthy name_hint then name_hint
    else
      match (splitLines chunk).find? (fun l => legalFormSearch none l) with
      | some l => some (pyStrip l)
      | none => name_hint
  let legal_type := categorize_legal_form
    (if truthy company_name then company_name else some chunk)
  { number := binfo.1
    date := binfo.2.1
    year := binfo.2.2
    company_name := company_name
    meta :=
      { cui := cui
        legal_type :=
          if legal_type = tS "SRL" ∨ legal_type = tS "SA" ∨
              legal_type = tS "PFA" ∨ legal_type = tS "SNC" then
            some legal_type
          else none
        reg_number := regno
        euid := euid
        caen := caen_codes
        capital := capital
        address := address }
    raw_text := chunk
    type := doc_type }

/-- Embedding of the parse_file loop over the segments: slice each segment
from the full text, clean it, drop it when shorter than 80 characters,
otherwise recover an entry with the anchor text as the name hint. -/
def parse_file_entries (full : Str) (sts : List Str)
    (binfo : Option Str × Option Str × Option Str) : List Entry :=
  (find_segments_via_strong full sts).filterMap (fun seg =>
    let chunk := clean_text ((full.take seg.2.1).drop seg.1)
    if chunk.length < 80 then none
    else some (extract_entry chunk (some seg.2.2) binfo))

/-- The end-to-end scenario chunk of the specification, verbatim. -/
def chunkAcme : Str :=
  tS "ACME S.R.L. ... CUI: 12345678 ... sediul social: Str. Exemplu nr.1, jud. Cluj; înregistrată ... (45/123.456)"

/-- The entry recovered from the scenario chunk with the name hint
ACME S.R.L. and the bulletin info (12, 01.01.2020, 2020). -/
def entryAcme : Entry :=
  extract_entry chunkAcme (some (tS "ACME S.R.L."))
    (some (tS "12"), some (tS "01.01.2020"), some (tS "2020"))

/-- An 80-character page text: an anchored name, filler, and a closing
locator, clean and exactly at the minimum-length threshold. -/
def full80 : Str :=
  tS "AAAA S.R.L. cu sediu si obiect de activitate in comuna Frumoasa din tar(1/1.111)"

/-- The same page text with one filler character removed: 79 characters,
one below the threshold. -/
def full79 : Str :=
  tS "AAAA S.R.L. cu sediu si obiect de activitate in comuna Frumoasa din ta(1/1.111)"

/-- The page-level segment metadata consulted by _merge_segment_meta
(leg5_src/parser/hybrid_parser.py): the tax id and registration number
recovered earlier in the pipeline. -/
structure SegMeta where
  cui : Option Str := none
  reg_number : Option Str := none
  deriving Repr, DecidableEq

/-- The mainInfo sub-dictionary fields touched by the merge. -/
structure MainInfoObj where
  cui : Option Str := none
  registrationNumber : Option Str := none
  deriving Repr, DecidableEq

/-- A parsed-company dictionary as _merge_segment_meta sees it: its
mainInfo sub-dictionary (set to empty by setdefault when absent) and its
legal-form field. -/
structure CompObj where
  mainInfo : Option MainInfoObj := none
  legalForm : Option Str := none
  deriving Repr, DecidableEq

/-- First guarded statement of _merge_segment_meta: fill mainInfo.cui from
the page-level value (prefixing RO when absent) only when the page-level
value is truthy and the stored one is not. -/
def mergeCuiStep (meta : SegMeta) (mi : MainInfoObj) : MainInfoObj :=
  if truthy meta.cui && !(truthy mi.cui) then
    match meta.cui with
    | some mcui =>
        let v := if startsWithL mcui (tS "RO") then mcui else tS "RO" ++ mcui
        { mi with cui := some v }
    | none => mi
  else mi

/-- Second guarded statement of _merge_segment_meta: fill the registration
number only when the page-level value is truthy and the stored one is not. -/
def mergeRegStep (meta : SegMeta) (mi : MainInfoObj) : MainInfoObj :=
  if truthy meta.reg_number && !(truthy mi.registrationNumber) then
    { mi with registrationNumber := meta.reg_number }
  else mi

/-- Embedding of _merge_segment_meta: the two guarded fills over the
mainInfo sub-dictionary (set to empty by setdefault when absent), then the
unconditional assignment of SRL to the legal-form field. -/
def merge_segment_meta (segMeta : Option SegMeta) (obj : CompObj) : CompObj :=
  let meta : SegMeta := segMeta.getD {}
  let mi0 : MainInfoObj := obj.mainInfo.getD {}
  { obj with
    mainInfo := some (mergeRegStep meta (mergeCuiStep meta mi0))
    legalForm := some (tS "SRL") }

/-- The failure mode of the orchestrator's main loop: reading a local
variable that was never assigned raises NameError. -/
inductive MainErr where
  | nameError
  deriving Repr, DecidableEq

/-- Embedding of the hybrid orchestrator's main loop over the readable
segments, parameterized over the heuristic extractor and the LLM call.
Each segment carries its page-level metadata and raw text. The escalation
flag need is a Python function-level local assigned only under the
force-llm option, modeled as an optional Boolean threaded through the
iterations that starts unbound; evaluating the escalation condition while
it is unbound raises NameError, which propagates out of the loop. -/
def runMainLoop (heur : Str → CompObj) (llm : Str → Option CompObj)
    (forceLlm : Bool) :
    List (Option SegMeta × Option Str) → Option Bool → Except MainErr (List CompObj)
  | [], _ => .ok []
  | (segMeta, rawOpt) :: rest, need =>
      let raw := if truthy rawOpt then rawOpt.getD [] else []
      let comp := merge_segment_meta segMeta (heur raw)
      let need1 := if forceLlm then some true else need
      match need1 with
      | none => .error .nameError
      | some b =>
          let comp2 :=
            if b then
              match llm raw with
              | some lc => merge_segment_meta segMeta lc
              | none => comp
            else comp
          match runMainLoop heur llm forceLlm rest (some b) with
          | .ok out => .ok (comp2 :: out)
          | .error e => .error e

/-! ### Lemmas about line splitting and the item splitter -/

/-- Replacement is the identity when the first pattern character is absent
from the source. -/
theorem replaceFuel_id (p0 : Char) (pt rep : Str) (n : Nat) (s : Str)
    (h : ∀ c ∈ s, c ≠ p0) : replaceFuel (p0 :: pt) rep n s = s := by
  induction n generalizing s with
  | zero => rfl
  | succ n ih =>
      cases s with
      | nil => rfl
      | cons c t =>
          have hc : c ≠ p0 := h c (List.mem_cons_self c t)
          have hs : stripPre (c :: t) (p0 :: pt) = none := by
            simp [stripPre, hc]
          simp only [replaceFuel, hs]
          exact congrArg (c :: ·) (ih t (fun d hd => h d (List.mem_cons_of_mem c hd)))

/-- Splitting break-free text yields the text as a single line (or nothing
at all when both the accumulator and the text are empty). -/
theorem splitLinesAux_noBreak (l : Str) (acc : Str)
    (h : ∀ c ∈ l, pyLineBreak c = false) :
    splitLinesAux l acc = if acc = [] ∧ l = [] then [] else [acc.reverse ++ l] := by
  induction l generalizing acc with
  | nil => simp [splitLinesAux]
  | cons c t ih =>
      have hc := h c (List.mem_cons_self c t)
      simp only [splitLinesAux, hc, Bool.false_eq_true, if_false]
      rw [ih (c :: acc) (fun d hd => h d (List.mem_cons_of_mem c hd))]
      simp

/-- Splitting at an explicit newline after a break-free line. -/
theorem splitLinesAux_pre (l : Str) (rest : Str) (acc : Str)
    (h : ∀ c ∈ l, pyLineBreak c = false) :
    splitLinesAux (l ++ '\n' :: rest) acc
      = (acc.reverse ++ l) :: splitLinesAux rest [] := by
  induction l generalizing acc with
  | nil => simp [splitLinesAux, pyLineBreak]
  | cons c t ih =>
      have hc := h c (List.mem_cons_self c t)
      have e : (c :: t) ++ '\n' :: rest = c :: (t ++ '\n' :: rest) := rfl
      rw [e]
      simp only [splitLinesAux, hc, Bool.false_eq_true, if_false]
      rw [ih (c :: acc) (fun d hd => h d (List.mem_cons_of_mem c hd))]
      simp

/-- Membership in a joined line list. -/
theorem mem_joinNl (ls : List Str) (c : Char) (hc : c ∈ joinNl ls) :
    c = '\n' ∨ ∃ l ∈ ls, c ∈ l := by
  induction ls with
  | nil => simp [joinNl] at hc
  | cons l t ih =>
      cases t with
      | nil => exact Or.inr ⟨l, by simp [joinNl] at hc ⊢; exact hc⟩
      | cons l2 t2 =>
          simp only [joinNl, List.mem_append, List.mem_cons] at hc
          rcases hc with hc | hc | hc
          · exact Or.inr ⟨l, List.mem_cons_self _ _, hc⟩
          · exact Or.inl hc
          · rcases ih hc with h | ⟨l3, hl3, hcl3⟩
            · exact Or.inl h
            · exact Or.inr ⟨l3, List.mem_cons_of_mem _ hl3, hcl3⟩

/-- Joining break-free nonempty lines and splitting again is the identity. -/
theorem splitLines_joinNl (ls : List Str)
    (hnb : ∀ l ∈ ls, ∀ c ∈ l, pyLineBreak c = false)
    (hne : ∀ l ∈ ls, l ≠ []) : splitLines (joinNl ls) = ls := by
  unfold splitLines
  have hcr : ∀ c ∈ joinNl ls, c ≠ '\r' := by
    intro c hc he
    rcases mem_joinNl ls c hc with h | ⟨l, hl, hcl⟩
    · subst he; simp at h
    · have := hnb l hl c hcl
      subst he
      simp [pyLineBreak] at this
  have hpat : tS "\r\n" = '\r' :: tS "\n" := rfl
  rw [hpat, replaceSub, replaceFuel_id _ _ _ _ _ hcr]
  clear hcr
  induction ls with
  | nil => simp [joinNl, splitLinesAux]
  | cons l t ih =>
      cases t with
      | nil =>
          have h1 := splitLinesAux_noBreak l [] (hnb l (List.mem_cons_self _ _))
          have h2 := hne l (List.mem_cons_self _ _)
          simp [joinNl, h1, h2]
      | cons l2 t2 =>
          have hl : ∀ c ∈ l, pyLineBreak c = false := hnb l (List.mem_cons_self _ _)
          have hstep : joinNl (l :: l2 :: t2) = l ++ '\n' :: joinNl (l2 :: t2) := by
            simp [joinNl]
          rw [hstep, splitLinesAux_pre l _ [] hl]
          simp only [List.reverse_nil, List.nil_append, List.cons.injEq, true_and]
          exact ih (fun x hx => hnb x (List.mem_cons_of_mem _ hx))
            (fun x hx => hne x (List.mem_cons_of_mem _ hx))

/-- Plain lines pass through the depth counter unchanged. -/
theorem takeItem_plains (ps : List Str)
    (hp : ∀ l ∈ ps, isArrayWordLine l = false ∧ isOpenLineWs l = false ∧
      isCloseLine l = false)
    (d : Nat) (ls : List Str) :
    takeItem d (ps ++ ls) = (ps ++ (takeItem d ls).1, (takeItem d ls).2) := by
  induction ps with
  | nil => simp
  | cons p ps ih =>
      have hp1 := hp p (List.mem_cons_self _ _)
      have hps : ∀ l ∈ ps, isArrayWordLine l = false ∧ isOpenLineWs l = false ∧
          isCloseLine l = false := fun l hl => hp l (List.mem_cons_of_mem _ hl)
      cases hq : ps ++ ls with
      | nil =>
          have hps0 : ps = [] := by
            cases ps with
            | nil => rfl
            | cons a b => simp at hq
          have hls0 : ls = [] := by
            subst hps0; simpa using hq
          subst hps0; subst hls0
          simp [takeItem]
      | cons x xs =>
          have : (p :: ps) ++ ls = p :: x :: xs := by simp [hq]
          rw [this]
          simp only [takeItem, hp1.1, hp1.2.1, hp1.2.2, Bool.false_and,
            Bool.false_eq_true, if_false]
          rw [← hq, ih hps]
          simp

/-- The depth counter at a nested Array header consumes both lines and
descends one level. -/
theorem takeItem_array_open (d : Nat) (ls : List Str) :
    takeItem d (tS "Array" :: tS "(" :: ls)
      = (tS "Array" :: tS "(" :: (takeItem (d + 1) ls).1, (takeItem (d + 1) ls).2) := by
  simp only [takeItem]
  rw [if_pos (by decide)]

/-- The depth counter at depth one stops at a closing line, excluding it
from the remainder. -/
theorem takeItem_close_one (ls : List Str) :
    takeItem 1 (tS ")" :: ls) = ([tS ")"], ls) := by
  cases ls with
  | nil => simp [takeItem]
  | cons x xs =>
      simp [takeItem, show isArrayWordLine (tS ")") = false from by decide,
        show isOpenLineWs (tS ")") = false from by decide,
        show isCloseLine (tS ")") = true from by decide]

/-- The depth counter above depth one consumes a closing line and ascends
one level. -/
theorem takeItem_close_succ (d : Nat) (ls : List Str) :
    takeItem (d + 2) (tS ")" :: ls)
      = (tS ")" :: (takeItem (d + 1) ls).1, (takeItem (d + 1) ls).2) := by
  cases ls with
  | nil => simp [takeItem]
  | cons x xs =>
      simp only [takeItem]
      rw [if_neg (by simp [show isArrayWordLine (tS ")") = false from by decide]),
        if_neg (by decide), if_pos (by decide), if_neg (by omega)]
      have e21 : d + 2 - 1 = d + 1 := by omega
      rw [e21]

/-- Consuming one whole item of the C8 shape: the plain prefix, the nested
Array block, the plain suffix, and the matching close. -/
theorem takeItem_body (p1 p2 p3 : List Str)
    (h1 : ∀ l ∈ p1, isArrayWordLine l = false ∧ isOpenLineWs l = false ∧
      isCloseLine l = false)
    (h2 : ∀ l ∈ p2, isArrayWordLine l = false ∧ isOpenLineWs l = false ∧
      isCloseLine l = false)
    (h3 : ∀ l ∈ p3, isArrayWordLine l = false ∧ isOpenLineWs l = false ∧
      isCloseLine l = false)
    (rest : List Str) :
    takeItem 1 (mkBody p1 p2 p3 ++ tS ")" :: rest)
      = (mkBody p1 p2 p3 ++ [tS ")"], rest) := by
  unfold mkBody
  have e0 : p1 ++ [tS "Array", tS "("] ++ p2 ++ [tS ")"] ++ p3 ++ tS ")" :: rest
      = p1 ++ (tS "Array" :: tS "(" :: (p2 ++ tS ")" :: (p3 ++ tS ")" :: rest))) := by
    simp
  rw [e0, takeItem_plains p1 h1, takeItem_array_open, takeItem_plains p2 h2,
    takeItem_close_succ 0, takeItem_plains p3 h3, takeItem_close_one]
  simp

/-- One item of the C8 shape at the head of the line stream contributes the
body as one block, and scanning resumes right after the item. -/
theorem splitItemsLines_mkItem (hdr : Str) (hh : isItemStartLine hdr = true)
    (p1 p2 p3 : List Str)
    (h1 : ∀ l ∈ p1, isArrayWordLine l = false ∧ isOpenLineWs l = false ∧
      isCloseLine l = false)
    (h2 : ∀ l ∈ p2, isArrayWordLine l = false ∧ isOpenLineWs l = false ∧
      isCloseLine l = false)
    (h3 : ∀ l ∈ p3, isArrayWordLine l = false ∧ isOpenLineWs l = false ∧
      isCloseLine l = false)
    (rest : List Str) :
    splitItemsLines (mkItem hdr (mkBody p1 p2 p3) ++ rest)
      = mkBody p1 p2 p3 :: splitItemsLines rest := by
  have e0 : mkItem hdr (mkBody p1 p2 p3) ++ rest
      = hdr :: tS "(" :: (mkBody p1 p2 p3 ++ tS ")" :: rest) := by
    simp [mkItem]
  rw [e0]
  rw [splitItemsLines]
  rw [if_pos (by simp [hh]; decide)]
  rw [takeItem_body p1 p2 p3 h1 h2 h3 rest]
  simp

/-- A joined item body of the C8 shape contains exactly one lone opening
parenthesis line and exactly one lone closing parenthesis line. -/
theorem counts_mkBody (p1 p2 p3 : List Str)
    (h1 : ∀ l ∈ p1, PlainLine l) (h2 : ∀ l ∈ p2, PlainLine l)
    (h3 : ∀ l ∈ p3, PlainLine l) :
    countOpenLines (joinNl (mkBody p1 p2 p3)) = 1 ∧
    countCloseLines (joinNl (mkBody p1 p2 p3)) = 1 := by
  have hmem : ∀ l ∈ mkBody p1 p2 p3,
      PlainLine l ∨ l = tS "Array" ∨ l = tS "(" ∨ l = tS ")" := by
    intro l hl
    unfold mkBody at hl
    rcases List.mem_append.mp hl with h | h
    · rcases List.mem_append.mp h with h | h
      · rcases List.mem_append.mp h with h | h
        · rcases List.mem_append.mp h with h | h
          · exact Or.inl (h1 l h)
          · rcases List.mem_cons.mp h with h | h
            · exact Or.inr (Or.inl h)
            · rcases List.mem_cons.mp h with h | h
              · exact Or.inr (Or.inr (Or.inl h))
              · simp at h
        · exact Or.inl (h2 l h)
      · rcases List.mem_cons.mp h with h | h
        · exact Or.inr (Or.inr (Or.inr h))
        · simp at h
    · exact Or.inl (h3 l h)
  have hnb : ∀ l ∈ mkBody p1 p2 p3, ∀ c ∈ l, pyLineBreak c = false := by
    intro l hl
    rcases hmem l hl with h | h | h | h
    · exact h.2.2.2.2
    · subst h; decide
    · subst h; decide
    · subst h; decide
  have hne : ∀ l ∈ mkBody p1 p2 p3, l ≠ [] := by
    intro l hl
    rcases hmem l hl with h | h | h | h
    · exact h.2.2.2.1
    · subst h; decide
    · subst h; decide
    · subst h; decide
  have hrt := splitLines_joinNl _ hnb hne
  unfold countOpenLines countCloseLines
  rw [hrt]
  unfold mkBody
  have hop1 : ∀ l ∈ p1, ¬(isOpenLineWs l = true) := fun l hl => by
    simp [(h1 l hl).2.1]
  have hop2 : ∀ l ∈ p2, ¬(isOpenLineWs l = true) := fun l hl => by
    simp [(h2 l hl).2.1]
  have hop3 : ∀ l ∈ p3, ¬(isOpenLineWs l = true) := fun l hl => by
    simp [(h3 l hl).2.1]
  have hcl1 : ∀ l ∈ p1, ¬(isCloseLine l = true) := fun l hl => by
    simp [(h1 l hl).2.2.1]
  have hcl2 : ∀ l ∈ p2, ¬(isCloseLine l = true) := fun l hl => by
    simp [(h2 l hl).2.2.1]
  have hcl3 : ∀ l ∈ p3, ¬(isCloseLine l = true) := fun l hl => by
    simp [(h3 l hl).2.2.1]
  constructor
  · simp [List.filter_append, List.filter_eq_nil_iff.mpr hop1,
      List.filter_eq_nil_iff.mpr hop2, List.filter_eq_nil_iff.mpr hop3,
      show isOpenLineWs (tS "Array") = false from by decide,
      show isOpenLineWs (tS "(") = true from by decide,
      show isOpenLineWs (tS ")") = false from by decide]
  · simp [List.filter_append, List.filter_eq_nil_iff.mpr hcl1,
      List.filter_eq_nil_iff.mpr hcl2, List.filter_eq_nil_iff.mpr hcl3,
      show isCloseLine (tS "Array") = false from by decide,
      show isCloseLine (tS "(") = false from by decide,
      show isCloseLine (tS ")") = true from by decide]

/-! ### Lemmas about the segmenter -/

/-- Inversion for the literal-character consumer. -/
theorem expectChar_eq_some (ch : Char) (s r : Str)
    (h : expectChar ch s = some r) : s = ch :: r := by
  cases s with
  | nil => simp [expectChar] at h
  | cons c t =>
      simp only [expectChar] at h
      by_cases hc : c = ch
      · rw [if_pos hc] at h
        obtain rfl : t = r := by injection h
        rw [hc]
      · rw [if_neg hc] at h
        exact absurd h (by simp)

/-- A matched thousands run splits off the source, and every consumed
character is a dot or a digit. -/
theorem matchEndGroups_decomp (s : Str) : ∀ r, matchEndGroups s = some r →
    ∃ g, s = g ++ r ∧ ∀ c ∈ g, c = '.' ∨ isDig c = true := by
  induction s using matchEndGroups.induct with
  | case1 d a b c t hg r0 hr ih =>
      intro r h
      have hstep : matchEndGroups (d :: a :: b :: c :: t) = some r0 := by
        simp only [matchEndGroups, hg, if_true, hr]
      rw [hstep] at h
      obtain rfl : r0 = r := by injection h
      have hds : d = '.' ∧ isDig a = true ∧ isDig b = true ∧ isDig c = true := by
        simp only [Bool.and_eq_true, decide_eq_true_eq] at hg
        exact ⟨hg.1.1.1, hg.1.1.2, hg.1.2, hg.2⟩
      rcases ih _ hr with ⟨g, hgeq, hgc⟩
      refine ⟨d :: a :: b :: c :: g, by simp [hgeq], ?_⟩
      intro x hx
      rcases List.mem_cons.mp hx with rfl | hx
      · exact Or.inl hds.1
      · rcases List.mem_cons.mp hx with rfl | hx
        · exact Or.inr hds.2.1
        · rcases List.mem_cons.mp hx with rfl | hx
          · exact Or.inr hds.2.2.1
          · rcases List.mem_cons.mp hx with rfl | hx
            · exact Or.inr hds.2.2.2
            · exact hgc x hx
  | case2 d a b c t hg hr ih =>
      intro r h
      have hstep : matchEndGroups (d :: a :: b :: c :: t) = some t := by
        simp only [matchEndGroups, hg, if_true, hr]
      rw [hstep] at h
      obtain rfl : t = r := by injection h
      have hds : d = '.' ∧ isDig a = true ∧ isDig b = true ∧ isDig c = true := by
        simp only [Bool.and_eq_true, decide_eq_true_eq] at hg
        exact ⟨hg.1.1.1, hg.1.1.2, hg.1.2, hg.2⟩
      refine ⟨[d, a, b, c], by simp, ?_⟩
      intro x hx
      rcases List.mem_cons.mp hx with rfl | hx
      · exact Or.inl hds.1
      · rcases List.mem_cons.mp hx with rfl | hx
        · exact Or.inr hds.2.1
        · rcases List.mem_cons.mp hx with rfl | hx
          · exact Or.inr hds.2.2.1
          · rcases List.mem_cons.mp hx with rfl | hx
            · exact Or.inr hds.2.2.2
            · simp at hx
  | case3 d a b c t hg =>
      intro r h
      simp only [matchEndGroups, hg, if_false] at h
      simp at h
  | case4 t hshape =>
      intro r h
      rcases t with _ | ⟨x1, _ | ⟨x2, _ | ⟨x3, _ | ⟨x4, t5⟩⟩⟩⟩
      · simp [matchEndGroups] at h
      · simp [matchEndGroups] at h
      · simp [matchEndGroups] at h
      · simp [matchEndGroups] at h
      · exact absurd rfl (hshape x1 x2 x3 x4 t5)

/-- A matched end marker decomposes the source into the opening
parenthesis, an interior free of parentheses, the closing parenthesis, and
the rest. -/
theorem matchEndMark_decomp (s r : Str) (h : matchEndMark s = some r) :
    ∃ inner, s = '(' :: inner ++ ')' :: r ∧
      ∀ c ∈ inner, pySpace c = true ∨ isDig c = true ∨ c = '/' ∨ c = '.' := by
  unfold matchEndMark at h
  rcases hb0 : expectChar '(' s with _ | r0
  · rw [hb0] at h; simp at h
  rw [hb0] at h
  simp only [Option.some_bind] at h
  have hs0 : s = '(' :: r0 := expectChar_eq_some _ _ _ hb0
  by_cases h1 : ((r0.dropWhile (fun c => pySpace c)).takeWhile
      (fun c => isDig c)).isEmpty
  · rw [if_pos h1] at h; simp at h
  rw [if_neg h1] at h
  rcases hb1 : expectChar '/'
      (((r0.dropWhile (fun c => pySpace c)).dropWhile
        (fun c => isDig c)).dropWhile (fun c => pySpace c)) with _ | r4
  · rw [hb1] at h; simp at h
  rw [hb1] at h
  simp only [Option.some_bind] at h
  have hs1 : ((r0.dropWhile (fun c => pySpace c)).dropWhile
      (fun c => isDig c)).dropWhile (fun c => pySpace c) = '/' :: r4 :=
    expectChar_eq_some _ _ _ hb1
  by_cases h2 : (((r4.dropWhile (fun c => pySpace c)).takeWhile
      (fun c => isDig c)).isEmpty ||
        3 < ((r4.dropWhile (fun c => pySpace c)).takeWhile
          (fun c => isDig c)).length : Bool)
  · rw [if_pos h2] at h; simp at h
  rw [if_neg h2] at h
  rcases hgr : matchEndGroups ((r4.dropWhile (fun c => pySpace c)).dropWhile
      (fun c => isDig c)) with _ | r7
  · rw [hgr] at h; simp at h
  rw [hgr] at h
  simp only [Option.some_bind] at h
  have hs2 : r7.dropWhile (fun c => pySpace c) = ')' :: r :=
    expectChar_eq_some _ _ _ h
  obtain ⟨g, hgeq, hgcls⟩ := matchEndGroups_decomp _ _ hgr
  set ws1 := r0.takeWhile (fun c => pySpace c) with hws1
  set rA := r0.dropWhile (fun c => pySpace c) with hrA
  set d1 := rA.takeWhile (fun c => isDig c) with hd1
  set rB := rA.dropWhile (fun c => isDig c) with hrB
  set ws2 := rB.takeWhile (fun c => pySpace c) with hws2
  set ws3 := r4.takeWhile (fun c => pySpace c) with hws3
  set r5 := r4.dropWhile (fun c => pySpace c) with hr5
  set d2 := r5.takeWhile (fun c => isDig c) with hd2
  set rC := r5.dropWhile (fun c => isDig c) with hrC
  set ws4 := r7.takeWhile (fun c => pySpace c) with hws4
  have hw0 : ws1 ++ rA = r0 := by
    rw [hws1, hrA]; exact List.takeWhile_append_dropWhile _ r0
  have hw1 : d1 ++ rB = rA := by
    rw [hd1, hrB]; exact List.takeWhile_append_dropWhile _ rA
  have hw2 : ws2 ++ '/' :: r4 = rB := by
    rw [← hs1, hws2]; exact List.takeWhile_append_dropWhile _ rB
  have hw3 : ws3 ++ r5 = r4 := by
    rw [hws3, hr5]; exact List.takeWhile_append_dropWhile _ r4
  have hw4 : d2 ++ rC = r5 := by
    rw [hd2, hrC]; exact List.takeWhile_append_dropWhile _ r5
  have hw5 : ws4 ++ ')' :: r = r7 := by
    rw [← hs2, hws4]; exact List.takeWhile_append_dropWhile _ r7
  refine ⟨ws1 ++ (d1 ++ (ws2 ++ '/' :: (ws3 ++ (d2 ++ (g ++ ws4))))), ?_, ?_⟩
  · rw [hs0]
    refine congrArg (List.cons '(') ?_
    calc r0 = ws1 ++ rA := hw0.symm
      _ = ws1 ++ (d1 ++ rB) := by rw [hw1]
      _ = ws1 ++ (d1 ++ (ws2 ++ '/' :: r4)) := by rw [hw2]
      _ = ws1 ++ (d1 ++ (ws2 ++ '/' :: (ws3 ++ r5))) := by rw [hw3]
      _ = ws1 ++ (d1 ++ (ws2 ++ '/' :: (ws3 ++ (d2 ++ rC)))) := by rw [hw4]
      _ = ws1 ++ (d1 ++ (ws2 ++ '/' :: (ws3 ++ (d2 ++ (g ++ r7))))) := by
          rw [hgeq]
      _ = ws1 ++ (d1 ++ (ws2 ++ '/' :: (ws3 ++ (d2 ++ (g ++
            (ws4 ++ ')' :: r)))))) := by rw [hw5]
      _ = _ := by simp [List.append_assoc]
  · intro c hc
    simp only [List.mem_append, List.mem_cons] at hc
    rcases hc with hc | hc | hc | hc | hc | hc | hc | hc
    · exact Or.inl (List.mem_takeWhile_imp (hws1 ▸ hc))
    · exact Or.inr (Or.inl (List.mem_takeWhile_imp (hd1 ▸ hc)))
    · exact Or.inl (List.mem_takeWhile_imp (hws2 ▸ hc))
    · exact Or.inr (Or.inr (Or.inl hc))
    · exact Or.inl (List.mem_takeWhile_imp (hws3 ▸ hc))
    · exact Or.inr (Or.inl (List.mem_takeWhile_imp (hd2 ▸ hc)))
    · rcases hgcls c hc with hx | hx
      · exact Or.inr (Or.inr (Or.inr hx))
      · exact Or.inr (Or.inl hx)
    · exact Or.inl (List.mem_takeWhile_imp (hws4 ▸ hc))

/-- Specification of the end-marker scan on a suffix: the result is the
first matching offset at or after the cursor, with the match end computed
from the consumed length. -/
theorem searchEndAux_spec (s : Str) : ∀ (i st en : Nat),
    searchEndAux s i = some (st, en) →
    i ≤ st ∧ (∃ r, matchEndMark (s.drop (st - i)) = some r ∧
      en = st + ((s.drop (st - i)).length - r.length)) ∧
    ∀ k, k < st - i → matchEndMark (s.drop k) = none := by
  induction s with
  | nil => intro i st en h; simp [searchEndAux] at h
  | cons c t ih =>
      intro i st en h
      simp only [searchEndAux] at h
      rcases hm : matchEndMark (c :: t) with _ | r
      · rw [hm] at h
        obtain ⟨h1, h2, h3⟩ := ih (i + 1) st en h
        refine ⟨by omega, ?_, ?_⟩
        · obtain ⟨r, hr, he⟩ := h2
          have hds : (c :: t).drop (st - i) = t.drop (st - (i + 1)) := by
            rw [show st - i = (st - (i + 1)) + 1 by omega]
            simp
          exact ⟨r, by rw [hds]; exact hr, by rw [hds]; exact he⟩
        · intro k hk
          cases k with
          | zero => simpa using hm
          | succ k2 =>
              have : (c :: t).drop (k2 + 1) = t.drop k2 := by simp
              rw [this]
              exact h3 k2 (by omega)
      · rw [hm] at h
        have hpair : i = st ∧ i + ((c :: t).length - r.length) = en := by
          have := Option.some.inj h
          exact ⟨congrArg Prod.fst this, congrArg Prod.snd this⟩
        obtain ⟨rfl, hen⟩ := hpair
        refine ⟨le_refl i, ⟨r, ?_, ?_⟩, ?_⟩
        · simpa using hm
        · simp only [Nat.sub_self, List.drop_zero]
          omega
        · intro k hk; omega

/-- Specification of END_MARK_RX.search(full, pos). -/
theorem searchEndFrom_spec (full : Str) (pos st en : Nat)
    (h : searchEndFrom full pos = some (st, en)) :
    pos ≤ st ∧ (∃ r, matchEndMark (full.drop st) = some r ∧
      en = st + ((full.drop st).length - r.length)) ∧
    ∀ j, pos ≤ j → j < st → matchEndMark (full.drop j) = none := by
  obtain ⟨h1, h2, h3⟩ := searchEndAux_spec (full.drop pos) pos st en h
  have hd : ∀ m : Nat, (full.drop pos).drop m = full.drop (pos + m) :=
    fun m => List.drop_drop m pos full
  refine ⟨h1, ?_, ?_⟩
  · obtain ⟨r, hr, he⟩ := h2
    have he2 : (full.drop pos).drop (st - pos) = full.drop st := by
      rw [hd (st - pos), show pos + (st - pos) = st by omega]
    exact ⟨r, by rw [← he2]; exact hr, by rw [← he2]; exact he⟩
  · intro j hj1 hj2
    have := h3 (j - pos) (by omega)
    rw [hd (j - pos), show pos + (j - pos) = j by omega] at this
    exact this

/-- Monotonicity of the end-marker search: searching from a later position
yields a match that starts and ends no earlier.  The key step is that no
opening parenthesis occurs strictly inside a match, so a later match
cannot begin inside an earlier one. -/
theorem searchEnd_mono (full : Str) (p q : Nat) (m1 m2 : Nat × Nat)
    (hpq : p ≤ q)
    (h1 : searchEndFrom full p = some m1)
    (h2 : searchEndFrom full q = some m2) :
    m1.1 ≤ m2.1 ∧ m1.2 ≤ m2.2 := by
  obtain ⟨hp1, ⟨r1, hr1, he1⟩, hmin1⟩ := searchEndFrom_spec full p m1.1 m1.2
    (by rw [h1])
  obtain ⟨hp2, ⟨r2, hr2, he2⟩, hmin2⟩ := searchEndFrom_spec full q m2.1 m2.2
    (by rw [h2])
  have hs12 : m1.1 ≤ m2.1 := by
    by_contra hlt
    push_neg at hlt
    have := hmin1 m2.1 (le_trans hpq hp2) hlt
    rw [this] at hr2
    exact absurd hr2 (by simp)
  refine ⟨hs12, ?_⟩
  rcases eq_or_lt_of_le hs12 with heq | hlt
  · rw [heq] at hr1 he1
    rw [hr1] at hr2
    obtain rfl : r1 = r2 := by injection hr2
    omega
  · obtain ⟨inner1, hdec1, hcls1⟩ := matchEndMark_decomp _ _ hr1
    obtain ⟨inner2, hdec2, _⟩ := matchEndMark_decomp _ _ hr2
    have hlen1 : (full.drop m1.1).length - r1.length = inner1.length + 2 := by
      rw [hdec1]
      simp only [List.length_cons, List.length_append]
      omega
    have he1' : m1.2 = m1.1 + inner1.length + 2 := by omega
    have hW : m1.1 + inner1.length + 2 ≤ m2.1 := by
      by_contra hce
      push_neg at hce
      have hfull2 : full[m2.1]? = some '(' := by
        have hg := List.getElem?_drop full m2.1 0
        rw [hdec2] at hg
        simpa using hg.symm
      have hk0 : full[m2.1]? = ('(' :: (inner1 ++ ')' :: r1))[m2.1 - m1.1]? := by
        have hg := List.getElem?_drop full m1.1 (m2.1 - m1.1)
        rw [show m1.1 + (m2.1 - m1.1) = m2.1 by omega] at hg
        rw [← hg, hdec1]
        rfl
      have hstep : ('(' :: (inner1 ++ ')' :: r1))[m2.1 - m1.1]?
          = (inner1 ++ ')' :: r1)[m2.1 - m1.1 - 1]? := by
        rw [show m2.1 - m1.1 = (m2.1 - m1.1 - 1) + 1 by omega,
          List.getElem?_cons_succ]
        simp
      rw [hstep, List.getElem?_append] at hk0
      by_cases hkin : m2.1 - m1.1 - 1 < inner1.length
      · rw [if_pos hkin] at hk0
        rw [hfull2] at hk0
        have hparen : '(' ∈ inner1 := by
          obtain ⟨hh, hcc⟩ := (List.getElem?_eq_some).mp hk0.symm
          exact hcc ▸ List.getElem_mem hh
        rcases hcls1 '(' hparen with hx | hx | hx | hx
        · exact absurd hx (by decide)
        · exact absurd hx (by decide)
        · exact absurd hx (by decide)
        · exact absurd hx (by decide)
      · rw [if_neg hkin] at hk0
        rw [show m2.1 - m1.1 - 1 - inner1.length = 0 by omega] at hk0
        rw [hfull2] at hk0
        simp at hk0
    omega

/-- Membership after a stable positional insertion. -/
theorem mem_insertByPos (p q : Nat × Str) (l : List (Nat × Str))
    (h : q ∈ insertByPos p l) : q = p ∨ q ∈ l := by
  induction l with
  | nil => simp [insertByPos] at h; exact Or.inl h
  | cons r t ih =>
      simp only [insertByPos] at h
      by_cases hc : r.1 ≤ p.1
      · rw [if_pos hc] at h
        rcases List.mem_cons.mp h with h1 | h1
        · exact Or.inr (List.mem_cons.mpr (Or.inl h1))
        · rcases ih h1 with h2 | h2
          · exact Or.inl h2
          · exact Or.inr (List.mem_cons.mpr (Or.inr h2))
      · rw [if_neg hc] at h
        rcases List.mem_cons.mp h with h1 | h1
        · exact Or.inl h1
        · exact Or.inr h1

/-- Stable positional insertion preserves sortedness by position. -/
theorem pairwise_insertByPos (p : Nat × Str) (l : List (Nat × Str))
    (h : l.Pairwise (fun a b => a.1 ≤ b.1)) :
    (insertByPos p l).Pairwise (fun a b => a.1 ≤ b.1) := by
  induction l with
  | nil => simp [insertByPos]
  | cons q t ih =>
      rcases List.pairwise_cons.mp h with ⟨hq, ht⟩
      simp only [insertByPos]
      by_cases hc : q.1 ≤ p.1
      · rw [if_pos hc]
        refine List.pairwise_cons.mpr ⟨?_, ih ht⟩
        intro b hb
        rcases mem_insertByPos p b t hb with rfl | hbt
        · exact hc
        · exact hq b hbt
      · rw [if_neg hc]
        refine List.pairwise_cons.mpr ⟨?_, h⟩
        intro b hb
        rcases List.mem_cons.mp hb with rfl | hbt
        · omega
        · have := hq b hbt; omega

/-- The anchor sort produces a position-sorted list. -/
theorem sortByPos_sorted (l : List (Nat × Str)) :
    (sortByPos l).Pairwise (fun a b => a.1 ≤ b.1) := by
  induction l with
  | nil => simp [sortByPos]
  | cons p t ih => exact pairwise_insertByPos p _ ih

/-! ### Lemmas about canonicalization -/

/-- Membership after a stable insertion. -/
theorem mem_insertSorted (p q : Nat × PValue) (l : List (Nat × PValue))
    (h : q ∈ insertSorted p l) : q = p ∨ q ∈ l := by
  induction l with
  | nil => simpa [insertSorted] using h
  | cons r t ih =>
      simp only [insertSorted] at h
      by_cases hc : r.1 ≤ p.1
      · rw [if_pos hc] at h
        rcases List.mem_cons.mp h with h1 | h1
        · right; exact List.mem_cons.mpr (Or.inl h1)
        · rcases ih h1 with h2 | h2
          · exact Or.inl h2
          · exact Or.inr (List.mem_cons.mpr (Or.inr h2))
      · rw [if_neg hc] at h
        rcases List.mem_cons.mp h with h1 | h1
        · exact Or.inl h1
        · exact Or.inr h1

/-- Membership is preserved backwards through the stable sort. -/
theorem mem_sortPairs (q : Nat × PValue) (l : List (Nat × PValue))
    (h : q ∈ sortPairs l) : q ∈ l := by
  induction l with
  | nil => simp [sortPairs] at h
  | cons p t ih =>
      simp only [sortPairs] at h
      rcases mem_insertSorted p q (sortPairs t) h with h1 | h1
      · exact h1 ▸ List.mem_cons_self p t
      · exact List.mem_cons.mpr (Or.inr (ih h1))

/-- Every value selected by the dense-range check comes from the pairs. -/
theorem densifyPairs_mem (kvs : List (Str × PValue)) (vs : List PValue)
    (h : densifyPairs kvs = some vs) : ∀ x ∈ vs, ∃ kv ∈ kvs, x = kv.2 := by
  intro x hx
  unfold densifyPairs at h
  by_cases h1 : (!kvs.isEmpty && kvs.all (fun kv => isDigitsKey kv.1)) = true
  · rw [if_pos h1] at h
    by_cases h2 : denseFrom 0 (sortPairs (kvs.map (fun kv => (natOfKey kv.1, kv.2)))) = true
    · rw [if_pos h2] at h
      have hv : vs = (sortPairs (kvs.map (fun kv => (natOfKey kv.1, kv.2)))).map Prod.snd :=
        (Option.some.injEq _ _ ▸ h).symm
      subst hv
      rcases List.mem_map.mp hx with ⟨p, hp, rfl⟩
      have hp2 := mem_sortPairs p _ hp
      rcases List.mem_map.mp hp2 with ⟨kv, hkv, rfl⟩
      exact ⟨kv, hkv, rfl⟩
    · rw [if_neg h2] at h; exact absurd h (by simp)
  · rw [if_neg h1] at h; exact absurd h (by simp)

/-- Canonicalization distributes over sequence construction. -/
theorem toListIfNumericL_plistOfList (xs : List PValue) :
    toListIfNumericL (plistOfList xs) = plistOfList (xs.map toListIfNumeric) := by
  induction xs with
  | nil => rfl
  | cons v t ih => simp [plistOfList, toListIfNumericL, ih]

/-- Canonicalizing a densified mapping whose entries are already fixed
points changes nothing. -/
theorem densify_fixed (o : PObj) (hO : toListIfNumericO o = o)
    (hfix : ∀ kv ∈ pobjToPairs o, toListIfNumeric kv.2 = kv.2) :
    toListIfNumeric (densify o) = densify o := by
  unfold densify
  cases h : densifyPairs (pobjToPairs o) with
  | none => simp only [toListIfNumeric, hO, densify, h]
  | some vs =>
      simp only [toListIfNumeric, toListIfNumericL_plistOfList]
      have hmap : vs.map toListIfNumeric = vs := by
        have hp := densifyPairs_mem _ _ h
        calc vs.map toListIfNumeric = vs.map id := by
              apply List.map_congr_left
              intro x hx
              rcases hp x hx with ⟨kv, hkv, rfl⟩
              exact hfix kv hkv
          _ = vs := List.map_id vs
      rw [hmap]

mutual
/-- Canonicalization is idempotent on values. -/
theorem toListIfNumeric_idem : ∀ v : PValue,
    toListIfNumeric (toListIfNumeric v) = toListIfNumeric v
  | .str _ => rfl
  | .lst vs => by simp only [toListIfNumeric, toListIfNumericL_idem vs]
  | .obj o => by
      simp only [toListIfNumeric]
      exact densify_fixed _ (toListIfNumericO_idem o) (toListIfNumericO_fix o)

/-- Canonicalization is idempotent on sequences. -/
theorem toListIfNumericL_idem : ∀ l : PList,
    toListIfNumericL (toListIfNumericL l) = toListIfNumericL l
  | .nil => rfl
  | .cons v t => by
      simp only [toListIfNumericL, toListIfNumeric_idem v, toListIfNumericL_idem t]

/-- Canonicalization is idempotent on mapping entries. -/
theorem toListIfNumericO_idem : ∀ o : PObj,
    toListIfNumericO (toListIfNumericO o) = toListIfNumericO o
  | .nil => rfl
  | .cons k v t => by
      simp only [toListIfNumericO, toListIfNumeric_idem v, toListIfNumericO_idem t]

/-- Entries of a canonicalized mapping are fixed points. -/
theorem toListIfNumericO_fix : ∀ o : PObj,
    ∀ kv ∈ pobjToPairs (toListIfNumericO o), toListIfNumeric kv.2 = kv.2
  | .nil => by intro kv h; simp [toListIfNumericO, pobjToPairs] at h
  | .cons k v t => by
      intro kv h
      simp only [toListIfNumericO, pobjToPairs, List.mem_cons] at h
      rcases h with h | h
      · subst h; exact toListIfNumeric_idem v
      · exact toListIfNumericO_fix t kv h
end

/-- The raw text stored on a recovered entry is exactly the chunk it was
recovered from. -/
theorem extract_entry_raw_text (c : Str) (h : Option Str)
    (b : Option Str × Option Str × Option Str) :
    (extract_entry c h b).raw_text = c := rfl

/-- The cui fill never touches the registration number. -/
theorem mergeCuiStep_reg (m : SegMeta) (mi : MainInfoObj) :
    (mergeCuiStep m mi).registrationNumber = mi.registrationNumber := by
  unfold mergeCuiStep
  split
  · split <;> rfl
  · rfl

/-- The cui fill keeps a truthy stored cui. -/
theorem mergeCuiStep_cui_truthy (m : SegMeta) (mi : MainInfoObj)
    (h : truthy mi.cui = true) : (mergeCuiStep m mi).cui = mi.cui := by
  unfold mergeCuiStep
  simp [h]

/-- The registration fill never touches the cui. -/
theorem mergeRegStep_cui (m : SegMeta) (mi : MainInfoObj) :
    (mergeRegStep m mi).cui = mi.cui := by
  unfold mergeRegStep
  split <;> rfl

/-- The registration fill keeps a truthy stored registration number. -/
theorem mergeRegStep_reg_truthy (m : SegMeta) (mi : MainInfoObj)
    (h : truthy mi.registrationNumber = true) :
    (mergeRegStep m mi).registrationNumber = mi.registrationNumber := by
  unfold mergeRegStep
  simp [h]

end Mo4

/-- C5: feeding the deserializer a dump of a mapping with keys 0, 1, 2 in
that order yields a 3-element sequence in that order, while keys 0, 2 (a
gap in the dense integer range) yield a mapping, not a sequence. -/
theorem C5_round_trip_dense_and_gap :
    Mo4.parse_php_array (Mo4.tS "Array\n(\n    [0] => a\n    [1] => b\n    [2] => c\n)") =
      .ok (.lst (.cons (.str (Mo4.tS "a")) (.cons (.str (Mo4.tS "b"))
        (.cons (.str (Mo4.tS "c")) .nil)))) ∧
    Mo4.parse_php_array (Mo4.tS "Array\n(\n    [0] => a\n    [2] => c\n)") =
      .ok (.obj (.cons (Mo4.tS "0") (.str (Mo4.tS "a"))
        (.cons (Mo4.tS "2") (.str (Mo4.tS "c")) .nil))) :=
  ⟨rfl, rfl⟩

/-- C6: canonicalization of dense-integer-keyed mappings to sequences is
idempotent; applying the pass to an already-canonicalized value yields the
same value. -/
theorem C6_canonicalization_idempotent (v : Mo4.PValue) :
    Mo4.toListIfNumeric (Mo4.toListIfNumeric v) = Mo4.toListIfNumeric v :=
  Mo4.toListIfNumeric_idem v

/-- C7: contrary to the claim that parse_php_array never raises, a
truncated dump whose final line is a key with an empty value reaches the
unguarded list access vals = [lines[j]] with the cursor past the end of
the line list, raising an IndexError. -/
theorem C7_truncated_dangling_key_raises_index_error :
    Mo4.parse_php_array (Mo4.tS "Array\n(\n    [numar] =>") = .error .indexError :=
  rfl

/-- C8: a block consisting of exactly 3 top-level sibling items of the form
bracketed-index arrow Array followed by an opening-parenthesis line, each
item containing a nested Array ( ... ) sub-structure, splits into exactly 3
text blocks, each a balanced slice whose count of lone opening-parenthesis
lines equals its count of lone closing-parenthesis lines. -/
theorem C8_split_top_level_items_three_balanced
    (p1 p2 p3 q1 q2 q3 r1 r2 r3 : List Mo4.Str)
    (hp1 : ∀ l ∈ p1, Mo4.PlainLine l) (hp2 : ∀ l ∈ p2, Mo4.PlainLine l)
    (hp3 : ∀ l ∈ p3, Mo4.PlainLine l) (hq1 : ∀ l ∈ q1, Mo4.PlainLine l)
    (hq2 : ∀ l ∈ q2, Mo4.PlainLine l) (hq3 : ∀ l ∈ q3, Mo4.PlainLine l)
    (hr1 : ∀ l ∈ r1, Mo4.PlainLine l) (hr2 : ∀ l ∈ r2, Mo4.PlainLine l)
    (hr3 : ∀ l ∈ r3, Mo4.PlainLine l) :
    Mo4.split_top_level_articole_items (Mo4.joinNl
        (Mo4.mkItem (Mo4.tS "[0] => Array") (Mo4.mkBody p1 p2 p3) ++
         Mo4.mkItem (Mo4.tS "[1] => Array") (Mo4.mkBody q1 q2 q3) ++
         Mo4.mkItem (Mo4.tS "[2] => Array") (Mo4.mkBody r1 r2 r3)))
      = [Mo4.joinNl (Mo4.mkBody p1 p2 p3), Mo4.joinNl (Mo4.mkBody q1 q2 q3),
         Mo4.joinNl (Mo4.mkBody r1 r2 r3)] ∧
    (Mo4.split_top_level_articole_items (Mo4.joinNl
        (Mo4.mkItem (Mo4.tS "[0] => Array") (Mo4.mkBody p1 p2 p3) ++
         Mo4.mkItem (Mo4.tS "[1] => Array") (Mo4.mkBody q1 q2 q3) ++
         Mo4.mkItem (Mo4.tS "[2] => Array") (Mo4.mkBody r1 r2 r3)))).length = 3 ∧
    ∀ b ∈ Mo4.split_top_level_articole_items (Mo4.joinNl
        (Mo4.mkItem (Mo4.tS "[0] => Array") (Mo4.mkBody p1 p2 p3) ++
         Mo4.mkItem (Mo4.tS "[1] => Array") (Mo4.mkBody q1 q2 q3) ++
         Mo4.mkItem (Mo4.tS "[2] => Array") (Mo4.mkBody r1 r2 r3))),
      Mo4.countOpenLines b = Mo4.countCloseLines b := by
  have flags : ∀ ps : List Mo4.Str, (∀ l ∈ ps, Mo4.PlainLine l) →
      ∀ l ∈ ps, Mo4.isArrayWordLine l = false ∧ Mo4.isOpenLineWs l = false ∧
        Mo4.isCloseLine l = false :=
    fun ps h l hl => ⟨(h l hl).1, (h l hl).2.1, (h l hl).2.2.1⟩
  have hItemMem : ∀ (hdr : Mo4.Str) (b1 b2 b3 : List Mo4.Str),
      (∀ l ∈ b1, Mo4.PlainLine l) → (∀ l ∈ b2, Mo4.PlainLine l) →
      (∀ l ∈ b3, Mo4.PlainLine l) →
      ∀ l ∈ Mo4.mkItem hdr (Mo4.mkBody b1 b2 b3),
        Mo4.PlainLine l ∨ l = hdr ∨ l = Mo4.tS "Array" ∨ l = Mo4.tS "(" ∨
          l = Mo4.tS ")" := by
    intro hdr b1 b2 b3 hb1 hb2 hb3 l hl
    unfold Mo4.mkItem at hl
    rcases List.mem_cons.mp hl with h | h
    · exact Or.inr (Or.inl h)
    · rcases List.mem_cons.mp h with h | h
      · exact Or.inr (Or.inr (Or.inr (Or.inl h)))
      · rcases List.mem_append.mp h with h | h
        · unfold Mo4.mkBody at h
          rcases List.mem_append.mp h with h | h
          · rcases List.mem_append.mp h with h | h
            · rcases List.mem_append.mp h with h | h
              · rcases List.mem_append.mp h with h | h
                · exact Or.inl (hb1 l h)
                · rcases List.mem_cons.mp h with h | h
                  · exact Or.inr (Or.inr (Or.inl h))
                  · rcases List.mem_cons.mp h with h | h
                    · exact Or.inr (Or.inr (Or.inr (Or.inl h)))
                    · simp at h
              · exact Or.inl (hb2 l h)
            · rcases List.mem_cons.mp h with h | h
              · exact Or.inr (Or.inr (Or.inr (Or.inr h)))
              · simp at h
          · exact Or.inl (hb3 l h)
        · rcases List.mem_cons.mp h with h | h
          · exact Or.inr (Or.inr (Or.inr (Or.inr h)))
          · simp at h
  set allLines := Mo4.mkItem (Mo4.tS "[0] => Array") (Mo4.mkBody p1 p2 p3) ++
      Mo4.mkItem (Mo4.tS "[1] => Array") (Mo4.mkBody q1 q2 q3) ++
      Mo4.mkItem (Mo4.tS "[2] => Array") (Mo4.mkBody r1 r2 r3) with hAll
  have hAllMem : ∀ l ∈ allLines, Mo4.PlainLine l ∨ l = Mo4.tS "[0] => Array" ∨
      l = Mo4.tS "[1] => Array" ∨ l = Mo4.tS "[2] => Array" ∨
      l = Mo4.tS "Array" ∨ l = Mo4.tS "(" ∨ l = Mo4.tS ")" := by
    intro l hl
    rw [hAll] at hl
    rcases List.mem_append.mp hl with h | h
    · rcases List.mem_append.mp h with h | h
      · rcases hItemMem _ _ _ _ hp1 hp2 hp3 l h with h | h | h | h | h
        · exact Or.inl h
        · exact Or.inr (Or.inl h)
        · exact Or.inr (Or.inr (Or.inr (Or.inr (Or.inl h))))
        · exact Or.inr (Or.inr (Or.inr (Or.inr (Or.inr (Or.inl h)))))
        · exact Or.inr (Or.inr (Or.inr (Or.inr (Or.inr (Or.inr h)))))
      · rcases hItemMem _ _ _ _ hq1 hq2 hq3 l h with h | h | h | h | h
        · exact Or.inl h
        · exact Or.inr (Or.inr (Or.inl h))
        · exact Or.inr (Or.inr (Or.inr (Or.inr (Or.inl h))))
        · exact Or.inr (Or.inr (Or.inr (Or.inr (Or.inr (Or.inl h)))))
        · exact Or.inr (Or.inr (Or.inr (Or.inr (Or.inr (Or.inr h)))))
    · rcases hItemMem _ _ _ _ hr1 hr2 hr3 l h with h | h | h | h | h
      · exact Or.inl h
      · exact Or.inr (Or.inr (Or.inr (Or.inl h)))
      · exact Or.inr (Or.inr (Or.inr (Or.inr (Or.inl h))))
      · exact Or.inr (Or.inr (Or.inr (Or.inr (Or.inr (Or.inl h)))))
      · exact Or.inr (Or.inr (Or.inr (Or.inr (Or.inr (Or.inr h)))))
  have hnb : ∀ l ∈ allLines, ∀ c ∈ l, Mo4.pyLineBreak c = false := by
    intro l hl
    rcases hAllMem l hl with h | h | h | h | h | h | h
    · exact h.2.2.2.2
    all_goals (subst h; decide)
  have hne : ∀ l ∈ allLines, l ≠ [] := by
    intro l hl
    rcases hAllMem l hl with h | h | h | h | h | h | h
    · exact h.2.2.2.1
    all_goals (subst h; decide)
  have hrt := Mo4.splitLines_joinNl allLines hnb hne
  have hsplit : Mo4.splitItemsLines allLines
      = [Mo4.mkBody p1 p2 p3, Mo4.mkBody q1 q2 q3, Mo4.mkBody r1 r2 r3] := by
    rw [hAll, List.append_assoc]
    rw [Mo4.splitItemsLines_mkItem _ (by decide) p1 p2 p3 (flags p1 hp1)
      (flags p2 hp2) (flags p3 hp3)]
    rw [Mo4.splitItemsLines_mkItem _ (by decide) q1 q2 q3 (flags q1 hq1)
      (flags q2 hq2) (flags q3 hq3)]
    have e : Mo4.mkItem (Mo4.tS "[2] => Array") (Mo4.mkBody r1 r2 r3)
        = Mo4.mkItem (Mo4.tS "[2] => Array") (Mo4.mkBody r1 r2 r3) ++ [] := by
      simp
    rw [e, Mo4.splitItemsLines_mkItem _ (by decide) r1 r2 r3 (flags r1 hr1)
      (flags r2 hr2) (flags r3 hr3)]
    simp [Mo4.splitItemsLines]
  have hmain : Mo4.split_top_level_articole_items (Mo4.joinNl allLines)
      = [Mo4.joinNl (Mo4.mkBody p1 p2 p3), Mo4.joinNl (Mo4.mkBody q1 q2 q3),
         Mo4.joinNl (Mo4.mkBody r1 r2 r3)] := by
    unfold Mo4.split_top_level_articole_items
    rw [hrt, hsplit]
    simp
  refine ⟨hmain, by rw [hmain]; rfl, ?_⟩
  intro b hb
  rw [hmain] at hb
  rcases List.mem_cons.mp hb with h | h
  · subst h
    have hc := Mo4.counts_mkBody p1 p2 p3 hp1 hp2 hp3
    rw [hc.1, hc.2]
  · rcases List.mem_cons.mp h with h | h
    · subst h
      have hc := Mo4.counts_mkBody q1 q2 q3 hq1 hq2 hq3
      rw [hc.1, hc.2]
    · rcases List.mem_cons.mp h with h | h
      · subst h
        have hc := Mo4.counts_mkBody r1 r2 r3 hr1 hr2 hr3
        rw [hc.1, hc.2]
      · simp at h

/-- C8 witness: the theorem applied to a concrete three-item block with one
plain body line per section. -/
theorem C8_witness_concrete_block :
    (Mo4.split_top_level_articole_items (Mo4.joinNl
        (Mo4.mkItem (Mo4.tS "[0] => Array")
          (Mo4.mkBody [Mo4.tS "  [id] => 7"] [Mo4.tS "   [0] => x"] []) ++
         Mo4.mkItem (Mo4.tS "[1] => Array")
          (Mo4.mkBody [Mo4.tS "  [id] => 8"] [Mo4.tS "   [0] => y"] []) ++
         Mo4.mkItem (Mo4.tS "[2] => Array")
          (Mo4.mkBody [Mo4.tS "  [id] => 9"] [Mo4.tS "   [0] => z"] [])))).length
      = 3 := by
  have h := C8_split_top_level_items_three_balanced
    [Mo4.tS "  [id] => 7"] [Mo4.tS "   [0] => x"] []
    [Mo4.tS "  [id] => 8"] [Mo4.tS "   [0] => y"] []
    [Mo4.tS "  [id] => 9"] [Mo4.tS "   [0] => z"] []
    (by decide) (by decide) (by decide) (by decide) (by decide) (by decide)
    (by decide) (by decide) (by decide)
  exact h.2.1

/-- C2 counterexample: two detected anchors that precede the same closing
marker produce overlapping chunks — the first chunk ends at offset 39,
strictly after the second chunk starts at offset 16, refuting the claim
that chunk1.end is at most chunk2.start. -/
theorem C2_counterexample_overlapping_chunks :
    Mo4.find_segments_via_strong
        (Mo4.tS "AAA S.R.L. text BBB S.A. more (1/1.111)")
        [Mo4.tS "AAA S.R.L.", Mo4.tS "BBB S.A."]
      = [(0, 39, Mo4.tS "AAA S.R.L."), (16, 39, Mo4.tS "BBB S.A.")] ∧
    ¬(39 ≤ 16) :=
  ⟨rfl, by decide⟩

/-- C2 amended: segmentation is order-preserving — for any two produced
chunks in output order, the second starts no earlier and ends no earlier
than the first (anchors preceding the same closing marker share an end, so
chunks may overlap and the original non-overlap claim fails). -/
theorem C2_amended_sorted_starts_and_ends (full : Mo4.Str) (sts : List Mo4.Str) :
    (Mo4.find_segments_via_strong full sts).Pairwise
      (fun a b => a.1 ≤ b.1 ∧ a.2.1 ≤ b.2.1) := by
  unfold Mo4.find_segments_via_strong
  rw [List.pairwise_filterMap]
  have hs := Mo4.sortByPos_sorted (Mo4.strongCandidates full sts)
  refine hs.imp ?_
  intro a b hab x hx y hy
  rcases Option.map_eq_some'.mp hx with ⟨ma, hma, hxa⟩
  rcases Option.map_eq_some'.mp hy with ⟨mb, hmb, hyb⟩
  have hmono := Mo4.searchEnd_mono full a.1 b.1 ma mb hab hma hmb
  subst hxa
  subst hyb
  exact ⟨hab, hmono.2⟩

/-- C3 counterexample: a detected anchor with no following closing marker
yields no chunk at all — the candidate list contains the anchor, yet the
segment list is empty, refuting the claim that such an anchor yields a
chunk extending to the end of the text. -/
theorem C3_counterexample_anchor_without_mark_dropped :
    Mo4.strongCandidates (Mo4.tS "AAA S.R.L. something with no mark")
        [Mo4.tS "AAA S.R.L."]
      = [(0, Mo4.tS "AAA S.R.L.")] ∧
    Mo4.find_segments_via_strong (Mo4.tS "AAA S.R.L. something with no mark")
        [Mo4.tS "AAA S.R.L."] = [] :=
  ⟨rfl, rfl⟩

/-- C3 amended: every detected anchor whose position is followed by a
closing marker yields the chunk from the anchor to that marker end, and an
anchor with no following closing marker yields no chunk (it contributes no
segment at all, rather than one extending to the end of the text). -/
theorem C3_amended_chunk_iff_end_marker (full : Mo4.Str) (sts : List Mo4.Str)
    (sidx : Nat) (st : Mo4.Str)
    (hmem : (sidx, st) ∈ Mo4.sortByPos (Mo4.strongCandidates full sts)) :
    (Mo4.searchEndFrom full sidx = none →
      ∀ e txt, (sidx, e, txt) ∉ Mo4.find_segments_via_strong full sts) ∧
    (∀ m : Nat × Nat, Mo4.searchEndFrom full sidx = some m →
      (sidx, m.2, st) ∈ Mo4.find_segments_via_strong full sts) := by
  constructor
  · intro hnone e txt hin
    unfold Mo4.find_segments_via_strong at hin
    rcases List.mem_filterMap.mp hin with ⟨p, _hp, hf⟩
    rcases Option.map_eq_some'.mp hf with ⟨m, hm, hmk⟩
    have hp1 : p.1 = sidx := by
      have := congrArg Prod.fst hmk
      simpa using this
    rw [hp1, hnone] at hm
    exact absurd hm (by simp)
  · intro m hm
    unfold Mo4.find_segments_via_strong
    refine List.mem_filterMap.mpr ⟨(sidx, st), hmem, ?_⟩
    rw [hm]
    rfl

/-- C3 witness: the amended theorem applied to the concrete page of the C2
counterexample — the anchor at offset 0 is followed by a closing marker
ending at offset 39 and yields exactly that chunk. -/
theorem C3_witness_concrete_segment :
    (0, 39, Mo4.tS "AAA S.R.L.") ∈
      Mo4.find_segments_via_strong
        (Mo4.tS "AAA S.R.L. text BBB S.A. more (1/1.111)")
        [Mo4.tS "AAA S.R.L.", Mo4.tS "BBB S.A."] := by
  have h := C3_amended_chunk_iff_end_marker
    (Mo4.tS "AAA S.R.L. text BBB S.A. more (1/1.111)")
    [Mo4.tS "AAA S.R.L.", Mo4.tS "BBB S.A."] 0 (Mo4.tS "AAA S.R.L.")
    (by decide)
  exact h.2 (30, 39) rfl

/-- C1: contrary to the claim, on the scenario chunk the recovered tax id is
the bare digit group, not the RO-prefixed form, and the recovered address is
absent altogether: the colon-form address pattern cannot carry its lazy
capture across the semicolon that precedes the closing locator, no stop
keyword follows the street text before that semicolon, and neither the
in-form pattern nor the keyword fallback fires on this chunk. -/
theorem C1_counterexample_cui_digits_only_and_address_none :
    Mo4.entryAcme.meta.cui ≠ some (Mo4.tS "RO12345678") ∧
    Mo4.entryAcme.meta.address ≠ some (Mo4.tS "Str. Exemplu nr.1, jud. Cluj") :=
  ⟨by decide, by decide⟩

/-- C1 (amended): on the scenario chunk with name hint ACME S.R.L. and
bulletin info (12, 01.01.2020, 2020) the field-recovery engine returns an
entry whose company name is the hint, whose tax id is the bare digits
12345678 as captured by group 1 of the CUI pattern, whose legal type is SRL,
and whose address is absent. -/
theorem C1_amended_entry_fields :
    Mo4.entryAcme.company_name = some (Mo4.tS "ACME S.R.L.") ∧
    Mo4.entryAcme.meta.cui = some (Mo4.tS "12345678") ∧
    Mo4.entryAcme.meta.legal_type = some (Mo4.tS "SRL") ∧
    Mo4.entryAcme.meta.address = none :=
  ⟨rfl, rfl, rfl, rfl⟩

/-- C9: a segmented chunk whose trimmed length is below the 80-character
minimum never appears in the output (proved for every page text, anchor
list and bulletin info), and the boundary is exact: the concrete 80-character
page keeps its chunk, with stored length exactly 80, while the 79-character
variant still segments but yields no entry. -/
theorem C9_length_threshold_exact_boundary :
    (∀ (full : Mo4.Str) (sts : List Mo4.Str)
        (binfo : Option Mo4.Str × Option Mo4.Str × Option Mo4.Str)
        (e : Mo4.Entry), e ∈ Mo4.parse_file_entries full sts binfo →
          80 ≤ e.raw_text.length) ∧
    (Mo4.parse_file_entries Mo4.full80 [Mo4.tS "AAAA S.R.L."] (none, none, none)).map
        (fun e => e.raw_text.length) = [80] ∧
    Mo4.find_segments_via_strong Mo4.full79 [Mo4.tS "AAAA S.R.L."] ≠ [] ∧
    Mo4.parse_file_entries Mo4.full79 [Mo4.tS "AAAA S.R.L."] (none, none, none) = [] := by
  refine ⟨?_, rfl, by decide, rfl⟩
  intro full sts binfo e he
  rcases List.mem_filterMap.mp he with ⟨seg, _, hf⟩
  dsimp only at hf
  split at hf
  · exact absurd hf (by simp)
  · rename_i hge
    have he2 := Option.some.inj hf
    subst he2
    rw [Mo4.extract_entry_raw_text]
    omega

/-- C9 witness: the kept boundary entry of the concrete 80-character page
has stored length at least 80. -/
theorem C9_witness_threshold_kept :
    80 ≤ (Mo4.extract_entry (Mo4.clean_text ((Mo4.full80.take 80).drop 0))
        (some (Mo4.tS "AAAA S.R.L.")) (none, none, none)).raw_text.length :=
  C9_length_threshold_exact_boundary.1 Mo4.full80 [Mo4.tS "AAAA S.R.L."]
    (none, none, none) _ (by decide)

/-- C4: contrary to the claim that the merge never changes a populated
field, the merge's final statement assigns SRL to the legal-form field
unconditionally: an object whose legal form is already SA comes out of the
merge with legal form SRL. -/
theorem C4_counterexample_legal_form_overwritten :
    (Mo4.merge_segment_meta none
        { mainInfo := some { cui := some (Mo4.tS "RO123456"), registrationNumber := none },
          legalForm := some (Mo4.tS "SA") }).legalForm ≠ some (Mo4.tS "SA") := by
  decide

/-- C4 (amended): the merge fills only the two identifier fields and only
when they are absent or empty: a truthy stored tax id keeps its value, a
truthy stored registration number keeps its value, but the legal-form
field is unconditionally overwritten with SRL. -/
theorem C4_amended_merge_preserves_truthy_ids (seg : Option Mo4.SegMeta)
    (obj : Mo4.CompObj) (mi : Mo4.MainInfoObj) (h : obj.mainInfo = some mi) :
    ∃ mi2, (Mo4.merge_segment_meta seg obj).mainInfo = some mi2 ∧
      (Mo4.truthy mi.cui = true → mi2.cui = mi.cui) ∧
      (Mo4.truthy mi.registrationNumber = true →
        mi2.registrationNumber = mi.registrationNumber) ∧
      (Mo4.merge_segment_meta seg obj).legalForm = some (Mo4.tS "SRL") := by
  refine ⟨Mo4.mergeRegStep (seg.getD {}) (Mo4.mergeCuiStep (seg.getD {})
      (obj.mainInfo.getD {})), rfl, ?_, ?_, rfl⟩
  · intro hcui
    rw [h, Option.getD_some, Mo4.mergeRegStep_cui, Mo4.mergeCuiStep_cui_truthy _ _ hcui]
  · intro hreg
    rw [h, Option.getD_some]
    rw [Mo4.mergeRegStep_reg_truthy, Mo4.mergeCuiStep_reg]
    rw [Mo4.mergeCuiStep_reg]
    exact hreg

/-- C4 witness: a concrete merge with both page-level identifiers present
and both stored identifiers truthy keeps both stored identifiers and sets
the legal form to SRL. -/
theorem C4_witness_concrete_merge :
    ∃ mi2, (Mo4.merge_segment_meta
        (some { cui := some (Mo4.tS "999"), reg_number := some (Mo4.tS "J1/2/2020") })
        { mainInfo := some { cui := some (Mo4.tS "RO123456"),
                             registrationNumber := some (Mo4.tS "J5/6/2021") },
          legalForm := some (Mo4.tS "SA") }).mainInfo = some mi2 ∧
      (Mo4.truthy (some (Mo4.tS "RO123456")) = true →
        mi2.cui = some (Mo4.tS "RO123456")) ∧
      (Mo4.truthy (some (Mo4.tS "J5/6/2021")) = true →
        mi2.registrationNumber = some (Mo4.tS "J5/6/2021")) ∧
      (Mo4.merge_segment_meta
        (some { cui := some (Mo4.tS "999"), reg_number := some (Mo4.tS "J1/2/2020") })
        { mainInfo := some { cui := some (Mo4.tS "RO123456"),
                             registrationNumber := some (Mo4.tS "J5/6/2021") },
          legalForm := some (Mo4.tS "SA") }).legalForm = some (Mo4.tS "SRL") :=
  C4_amended_merge_preserves_truthy_ids
    (some { cui := some (Mo4.tS "999"), reg_number := some (Mo4.tS "J1/2/2020") })
    { mainInfo := some { cui := some (Mo4.tS "RO123456"),
                         registrationNumber := some (Mo4.tS "J5/6/2021") },
      legalForm := some (Mo4.tS "SA") }
    { cui := some (Mo4.tS "RO123456"), registrationNumber := some (Mo4.tS "J5/6/2021") }
    rfl

/-- C10: when the force-llm option is not set the escalation flag need is
never assigned, so for every heuristic, every LLM and every nonempty
segment batch the loop raises NameError on its first segment, aborting the
batch instead of keeping the heuristic result and continuing. -/
theorem C10_unbound_need_raises_name_error (heur : Mo4.Str → Mo4.CompObj)
    (llm : Mo4.Str → Option Mo4.CompObj)
    (segs : List (Option Mo4.SegMeta × Option Mo4.Str)) (h : segs ≠ []) :
    Mo4.runMainLoop heur llm false segs none = .error .nameError := by
  cases segs with
  | nil => exact absurd rfl h
  | cons s t => rfl

/-- C10 witness: a concrete one-segment batch with the trivial heuristic
and no LLM aborts with NameError when force-llm is off. -/
theorem C10_witness_one_segment :
    Mo4.runMainLoop (fun _ => {}) (fun _ => none) false
      [(none, some (Mo4.tS "some raw text"))] none = .error .nameError :=
  C10_unbound_need_raises_name_error (fun _ => {}) (fun _ => none)
    [(none, some (Mo4.tS "some raw text"))] (by decide)
